import Mathlib

/-
Verification of the `fkd` content-rewriting proxy (src/后端/Workers.js).

JavaScript strings are modelled as `List Char` (Unicode scalar values; a
Lean `Char` can never be a lone surrogate, which `encodeURIComponent`
would reject anyway).  Platform built-ins used by the worker
(`encodeURIComponent`, `decodeURIComponent`, the WHATWG `URL` class, the
`Headers` collection, string/regex methods) are modelled directly from
their specifications; the worker's own functions are translated from the
source line by line.
-/

set_option maxRecDepth 16384

namespace Fkd

/-! ### Basic string utilities -/

/-- ASCII lowercasing of one character, as `String.prototype.toLowerCase`
does on ASCII letters (non-ASCII case mappings are not needed here). -/
def toLowerCh (c : Char) : Char :=
  if 'A' ≤ c ∧ c ≤ 'Z' then Char.ofNat (c.toNat + 32) else c

/-- ASCII lowercasing of a string. -/
def lowerL (s : List Char) : List Char := s.map toLowerCh

/-- Boolean prefix test: `hasPrefixL pat s` is true when `pat` is a prefix
of `s`. -/
def hasPrefixL : List Char → List Char → Bool
  | [], _ => true
  | _ :: _, [] => false
  | p :: ps, c :: cs => p == c && hasPrefixL ps cs

/-- Case-insensitive (ASCII) prefix test. -/
def hasPrefixCI (pat s : List Char) : Bool := hasPrefixL (lowerL pat) (lowerL s)

/-- Boolean substring test, models `String.prototype.includes`
(case-sensitive). -/
def containsStr (pat : List Char) : List Char → Bool
  | [] => hasPrefixL pat []
  | c :: t => hasPrefixL pat (c :: t) || containsStr pat t

/-- Case-insensitive (ASCII) substring test. -/
def containsCI (pat s : List Char) : Bool := containsStr (lowerL pat) (lowerL s)

/-- `String.prototype.split` with a one-character separator. -/
def splitOnChar (sep : Char) : List Char → List (List Char)
  | [] => [[]]
  | c :: rest =>
    match splitOnChar sep rest with
    | [] => [[]]
    | cur :: rs => if c = sep then [] :: cur :: rs else (c :: cur) :: rs

/-- `Array.prototype.join` with a one-character separator. -/
def joinChar (sep : Char) : List (List Char) → List Char
  | [] => []
  | [x] => x
  | x :: y :: t => x ++ sep :: joinChar sep (y :: t)

/-- The whitespace class of JavaScript (`\s`, `String.prototype.trim`):
space, tab, line terminators, vertical tab, form feed, NBSP, BOM and the
Unicode line/paragraph separators (the code points a cookie or HTML
attribute can realistically contain). -/
def isJsSpace (c : Char) : Bool :=
  c == ' ' || c == '\t' || c == '\n' || c == '\r' ||
  c.toNat == 0x0B || c.toNat == 0x0C || c.toNat == 0xA0 ||
  c.toNat == 0xFEFF || c.toNat == 0x2028 || c.toNat == 0x2029

/-- `String.prototype.trim`: strip `\s` characters from both ends. -/
def trimJs (s : List Char) : List Char :=
  ((s.dropWhile isJsSpace).reverse.dropWhile isJsSpace).reverse

/-- Decimal digits of a natural number (for URL port serialization). -/
def natDigits (n : Nat) : List Char :=
  if _h : n < 10 then [Char.ofNat (48 + n)]
  else natDigits (n / 10) ++ [Char.ofNat (48 + n % 10)]
termination_by n
decreasing_by
  exact Nat.div_lt_self (by omega) (by omega)

/-- The apostrophe character (U+0027). -/
def squote : Char := Char.ofNat 39

/-! ### `encodeURIComponent` / `decodeURIComponent`

`encodeURIComponent` leaves the unreserved characters
`A-Z a-z 0-9 - _ . ! ~ * ' ( )` alone and percent-encodes the UTF-8
bytes of every other character, using uppercase hex digits.
`decodeURIComponent` decodes every `%XX` escape, reassembling UTF-8
byte sequences into characters and failing (`URIError`, modelled as
`none`) on malformed input. -/

/-- The unreserved set of `encodeURIComponent`. -/
def isUnreservedURI (c : Char) : Bool :=
  ('A' ≤ c && c ≤ 'Z') || ('a' ≤ c && c ≤ 'z') || ('0' ≤ c && c ≤ '9') ||
  c == '-' || c == '_' || c == '.' || c == '!' || c == '~' || c == '*' ||
  c == squote || c == '(' || c == ')'

/-- Uppercase hex digit for a value below 16. -/
def hexDigitChar (n : Nat) : Char :=
  if n < 10 then Char.ofNat (48 + n) else Char.ofNat (55 + n)

/-- Percent-escape of one byte: `%XY` with uppercase hex. -/
def pctTriple (b : Nat) : List Char :=
  ['%', hexDigitChar (b / 16), hexDigitChar (b % 16)]

/-- UTF-8 bytes of a code point (as natural numbers below 256). -/
def utf8Bytes (n : Nat) : List Nat :=
  if n < 0x80 then [n]
  else if n < 0x800 then [0xC0 + n / 64, 0x80 + n % 64]
  else if n < 0x10000 then
    [0xE0 + n / 4096, 0x80 + (n / 64) % 64, 0x80 + n % 64]
  else
    [0xF0 + n / 262144, 0x80 + (n / 4096) % 64, 0x80 + (n / 64) % 64,
     0x80 + n % 64]

/-- Flatten-map over a list (explicit recursion keeps the proofs below
independent of library unfolding behaviour). -/
def flatMapL (f : α → List β) : List α → List β
  | [] => []
  | a :: t => f a ++ flatMapL f t

/-- `encodeURIComponent` on one character. -/
def encodeURIChar (c : Char) : List Char :=
  if isUnreservedURI c then [c] else flatMapL pctTriple (utf8Bytes c.toNat)

/-- `encodeURIComponent`. -/
def encodeURIComponent (s : List Char) : List Char := flatMapL encodeURIChar s

/-- Value of one hex digit character, either case. -/
def hexVal (c : Char) : Option Nat :=
  if '0' ≤ c ∧ c ≤ '9' then some (c.toNat - 48)
  else if 'A' ≤ c ∧ c ≤ 'F' then some (c.toNat - 55)
  else if 'a' ≤ c ∧ c ≤ 'f' then some (c.toNat - 87)
  else none

/-- Read one `%XY` escape from the head of the input, returning the byte
value and the rest. -/
def readPctByte : List Char → Option (Nat × List Char)
  | '%' :: x :: y :: rest =>
    match hexVal x, hexVal y with
    | some hv, some lv => some (hv * 16 + lv, rest)
    | _, _ => none
  | _ => none

/-- Is `b` a UTF-8 continuation byte? -/
def isContByte (b : Nat) : Bool := 0x80 ≤ b && b < 0xC0

/-- Decode one percent-escaped UTF-8 character from the head of the
input (the head is known to be `%`).  Rejects stray continuation bytes,
overlong encodings, surrogates and out-of-range code points, as
`decodeURIComponent` does. -/
def pctDecodeChar (s : List Char) : Option (Char × List Char) :=
  match readPctByte s with
  | none => none
  | some (b, r1) =>
    if b < 0x80 then some (Char.ofNat b, r1)
    else if b < 0xC2 then none
    else if b < 0xE0 then
      match readPctByte r1 with
      | some (b1, r2) =>
        if isContByte b1 then
          some (Char.ofNat ((b - 0xC0) * 64 + (b1 - 0x80)), r2)
        else none
      | none => none
    else if b < 0xF0 then
      match readPctByte r1 with
      | some (b1, r2) =>
        match readPctByte r2 with
        | some (b2, r3) =>
          if isContByte b1 && isContByte b2 then
            if (b - 0xE0) * 4096 + (b1 - 0x80) * 64 + (b2 - 0x80) < 0x800 ∨
               (0xD800 ≤ (b - 0xE0) * 4096 + (b1 - 0x80) * 64 + (b2 - 0x80) ∧
                (b - 0xE0) * 4096 + (b1 - 0x80) * 64 + (b2 - 0x80) < 0xE000) then
              none
            else
              some (Char.ofNat ((b - 0xE0) * 4096 + (b1 - 0x80) * 64 + (b2 - 0x80)), r3)
          else none
        | none => none
      | none => none
    else if b < 0xF5 then
      match readPctByte r1 with
      | some (b1, r2) =>
        match readPctByte r2 with
        | some (b2, r3) =>
          match readPctByte r3 with
          | some (b3, r4) =>
            if isContByte b1 && isContByte b2 && isContByte b3 then
              if (b - 0xF0) * 262144 + (b1 - 0x80) * 4096 +
                   (b2 - 0x80) * 64 + (b3 - 0x80) < 0x10000 ∨
                 0x110000 ≤ (b - 0xF0) * 262144 + (b1 - 0x80) * 4096 +
                   (b2 - 0x80) * 64 + (b3 - 0x80) then
                none
              else
                some (Char.ofNat ((b - 0xF0) * 262144 + (b1 - 0x80) * 4096 +
                        (b2 - 0x80) * 64 + (b3 - 0x80)), r4)
            else none
          | none => none
        | none => none
      | none => none
    else none

theorem readPctByte_length {s : List Char} {b : Nat} {r : List Char}
    (h : readPctByte s = some (b, r)) : r.length + 3 = s.length := by
  unfold readPctByte at h
  split at h
  · split at h
    · rw [Option.some.injEq, Prod.mk.injEq] at h
      obtain ⟨-, rfl⟩ := h
      simp
    · exact absurd h (by simp)
  · exact absurd h (by simp)

theorem pctDecodeChar_length {s : List Char} {c : Char} {r : List Char}
    (h : pctDecodeChar s = some (c, r)) : r.length < s.length := by
  unfold pctDecodeChar at h
  split at h
  · exact absurd h (by simp)
  · rename_i b r1 heq1
    have h1 := readPctByte_length heq1
    split at h
    · rw [Option.some.injEq, Prod.mk.injEq] at h
      obtain ⟨-, rfl⟩ := h
      omega
    · split at h
      · exact absurd h (by simp)
      · split at h
        · split at h
          · rename_i b1 r2 heq2
            have h2 := readPctByte_length heq2
            split at h
            · rw [Option.some.injEq, Prod.mk.injEq] at h
              obtain ⟨-, rfl⟩ := h
              omega
            · exact absurd h (by simp)
          · exact absurd h (by simp)
        · split at h
          · split at h
            · rename_i b1 r2 heq2
              have h2 := readPctByte_length heq2
              split at h
              · rename_i b2 r3 heq3
                have h3 := readPctByte_length heq3
                split at h
                · split at h
                  · exact absurd h (by simp)
                  · rw [Option.some.injEq, Prod.mk.injEq] at h
                    obtain ⟨-, rfl⟩ := h
                    omega
                · exact absurd h (by simp)
              · exact absurd h (by simp)
            · exact absurd h (by simp)
          · split at h
            · split at h
              · rename_i b1 r2 heq2
                have h2 := readPctByte_length heq2
                split at h
                · rename_i b2 r3 heq3
                  have h3 := readPctByte_length heq3
                  split at h
                  · rename_i b3 r4 heq4
                    have h4 := readPctByte_length heq4
                    split at h
                    · split at h
                      · exact absurd h (by simp)
                      · rw [Option.some.injEq, Prod.mk.injEq] at h
                        obtain ⟨-, rfl⟩ := h
                        omega
                    · exact absurd h (by simp)
                  · exact absurd h (by simp)
                · exact absurd h (by simp)
              · exact absurd h (by simp)
            · exact absurd h (by simp)

/-- Fuel-driven body of `decodeURIComponent`.  Every step consumes at
least one character and spends one unit of fuel, so with fuel equal to
the input length the fuel-exhausted branch is unreachable. -/
def decodeURIComponentGo : Nat → List Char → Option (List Char)
  | _, [] => some []
  | 0, _ :: _ => none
  | fuel + 1, c :: rest =>
    if c = '%' then
      match pctDecodeChar (c :: rest) with
      | none => none
      | some (ch, r) =>
        match decodeURIComponentGo fuel r with
        | none => none
        | some t => some (ch :: t)
    else
      match decodeURIComponentGo fuel rest with
      | none => none
      | some t => some (c :: t)

/-- `decodeURIComponent`; `none` models a thrown `URIError`. -/
def decodeURIComponent (s : List Char) : Option (List Char) :=
  decodeURIComponentGo s.length s

theorem hexVal_hexDigitChar_fin : ∀ i : Fin 16, hexVal (hexDigitChar i.val) = some i.val := by
  decide

theorem hexVal_hexDigitChar {n : Nat} (h : n < 16) : hexVal (hexDigitChar n) = some n :=
  hexVal_hexDigitChar_fin ⟨n, h⟩

theorem readPctByte_pctTriple (b : Nat) (hb : b < 256) (r : List Char) :
    readPctByte (pctTriple b ++ r) = some (b, r) := by
  have h1 : hexVal (hexDigitChar (b / 16)) = some (b / 16) := hexVal_hexDigitChar (by omega)
  have h2 : hexVal (hexDigitChar (b % 16)) = some (b % 16) := hexVal_hexDigitChar (by omega)
  simp only [pctTriple, List.cons_append, List.nil_append, readPctByte, h1, h2,
    Option.some.injEq, Prod.mk.injEq, and_true]
  omega

theorem char_toNat_valid (c : Char) :
    c.toNat < 0xD800 ∨ (0xDFFF < c.toNat ∧ c.toNat < 0x110000) := by
  have h := c.valid
  simpa [UInt32.isValidChar, Nat.isValidChar, Char.toNat] using h

theorem utf8Bytes_shape (n : Nat) : ∃ a t, utf8Bytes n = a :: t := by
  unfold utf8Bytes
  split
  · exact ⟨_, _, rfl⟩
  · split
    · exact ⟨_, _, rfl⟩
    · split
      · exact ⟨_, _, rfl⟩
      · exact ⟨_, _, rfl⟩

theorem pctDecodeChar_utf8 (c : Char) (r : List Char) :
    pctDecodeChar (flatMapL pctTriple (utf8Bytes c.toNat) ++ r) = some (c, r) := by
  have hval := char_toNat_valid c
  have hofn := Char.ofNat_toNat c
  by_cases h1 : c.toNat < 0x80
  · rw [utf8Bytes, if_pos h1]
    simp only [flatMapL, List.append_nil]
    simp only [pctDecodeChar, readPctByte_pctTriple c.toNat (by omega) r]
    rw [if_pos h1, hofn]
  · by_cases h2 : c.toNat < 0x800
    · rw [utf8Bytes, if_neg h1, if_pos h2]
      simp only [flatMapL, List.append_nil, List.append_assoc]
      simp only [pctDecodeChar, readPctByte_pctTriple (0xC0 + c.toNat / 64) (by omega) _]
      rw [if_neg (by omega), if_neg (by omega), if_pos (by omega)]
      simp only [readPctByte_pctTriple (0x80 + c.toNat % 64) (by omega) r]
      rw [if_pos (by simp only [isContByte, Bool.and_eq_true, decide_eq_true_eq]; omega)]
      rw [show (0xC0 + c.toNat / 64 - 0xC0) * 64 + (0x80 + c.toNat % 64 - 0x80) = c.toNat by
        omega]
      rw [hofn]
    · by_cases h3 : c.toNat < 0x10000
      · rw [utf8Bytes, if_neg h1, if_neg h2, if_pos h3]
        simp only [flatMapL, List.append_nil, List.append_assoc]
        simp only [pctDecodeChar, readPctByte_pctTriple (0xE0 + c.toNat / 4096) (by omega) _]
        rw [if_neg (by omega), if_neg (by omega), if_neg (by omega), if_pos (by omega)]
        simp only [readPctByte_pctTriple (0x80 + c.toNat / 64 % 64) (by omega) _,
          readPctByte_pctTriple (0x80 + c.toNat % 64) (by omega) r]
        rw [if_pos (by simp only [isContByte, Bool.and_eq_true, decide_eq_true_eq]
                       refine ⟨⟨?_, ?_⟩, ?_, ?_⟩ <;> omega)]
        rw [show (0xE0 + c.toNat / 4096 - 0xE0) * 4096 +
            (0x80 + c.toNat / 64 % 64 - 0x80) * 64 + (0x80 + c.toNat % 64 - 0x80) = c.toNat by
          omega]
        rw [if_neg (by omega), hofn]
      · have h4 : c.toNat < 0x110000 := by omega
        rw [utf8Bytes, if_neg h1, if_neg h2, if_neg h3]
        simp only [flatMapL, List.append_nil, List.append_assoc]
        simp only [pctDecodeChar, readPctByte_pctTriple (0xF0 + c.toNat / 262144) (by omega) _]
        rw [if_neg (by omega), if_neg (by omega), if_neg (by omega), if_neg (by omega),
          if_pos (by omega)]
        simp only [readPctByte_pctTriple (0x80 + c.toNat / 4096 % 64) (by omega) _,
          readPctByte_pctTriple (0x80 + c.toNat / 64 % 64) (by omega) _,
          readPctByte_pctTriple (0x80 + c.toNat % 64) (by omega) r]
        rw [if_pos (by simp only [isContByte, Bool.and_eq_true, decide_eq_true_eq]
                       refine ⟨⟨⟨?_, ?_⟩, ?_, ?_⟩, ?_, ?_⟩ <;> omega)]
        rw [show (0xF0 + c.toNat / 262144 - 0xF0) * 262144 +
            (0x80 + c.toNat / 4096 % 64 - 0x80) * 4096 +
            (0x80 + c.toNat / 64 % 64 - 0x80) * 64 + (0x80 + c.toNat % 64 - 0x80) = c.toNat by
          omega]
        rw [if_neg (by omega), hofn]

theorem isUnreservedURI_ne_pct {c : Char} (h : isUnreservedURI c = true) : c ≠ '%' := by
  intro heq
  subst heq
  exact absurd h (by decide)

theorem decodeURIComponentGo_encode (s : List Char) :
    ∀ fuel, (encodeURIComponent s).length ≤ fuel →
      decodeURIComponentGo fuel (encodeURIComponent s) = some s := by
  induction s with
  | nil =>
    intro fuel _
    show decodeURIComponentGo fuel [] = some []
    cases fuel <;> rfl
  | cons c t ih =>
    intro fuel hfuel
    have hlen : (encodeURIChar c).length + (encodeURIComponent t).length ≤ fuel := by
      have : encodeURIComponent (c :: t) = encodeURIChar c ++ encodeURIComponent t := rfl
      rw [this, List.length_append] at hfuel
      exact hfuel
    have hpos : 1 ≤ (encodeURIChar c).length := by
      rw [encodeURIChar]
      split
      · simp
      · obtain ⟨a, bs, hsh⟩ := utf8Bytes_shape c.toNat
        rw [hsh]
        simp [flatMapL, pctTriple]
    cases fuel with
    | zero => omega
    | succ f =>
      have hrec : decodeURIComponentGo f (encodeURIComponent t) = some t :=
        ih f (by omega)
      show decodeURIComponentGo (f + 1) (encodeURIChar c ++ encodeURIComponent t) =
        some (c :: t)
      by_cases hu : isUnreservedURI c
      · rw [encodeURIChar, if_pos hu, List.cons_append, List.nil_append]
        rw [decodeURIComponentGo, if_neg (isUnreservedURI_ne_pct hu)]
        simp only [hrec]
      · rw [encodeURIChar, if_neg hu]
        obtain ⟨a, bs, hsh⟩ := utf8Bytes_shape c.toNat
        have hhead : flatMapL pctTriple (utf8Bytes c.toNat) ++ encodeURIComponent t =
            '%' :: ((hexDigitChar (a / 16) :: hexDigitChar (a % 16) ::
              flatMapL pctTriple bs) ++ encodeURIComponent t) := by
          rw [hsh]
          simp [flatMapL, pctTriple]
        have hdec : pctDecodeChar ('%' :: ((hexDigitChar (a / 16) :: hexDigitChar (a % 16) ::
            flatMapL pctTriple bs) ++ encodeURIComponent t)) =
            some (c, encodeURIComponent t) := by
          rw [← hhead]
          exact pctDecodeChar_utf8 c (encodeURIComponent t)
        rw [hhead, decodeURIComponentGo, if_pos rfl]
        simp only [hdec, hrec]

theorem decodeURIComponent_encode (s : List Char) :
    decodeURIComponent (encodeURIComponent s) = some s :=
  decodeURIComponentGo_encode s (encodeURIComponent s).length (Nat.le_refl _)

theorem utf8Bytes_all_lt {n : Nat} (hn : n < 0x110000) : ∀ b ∈ utf8Bytes n, b < 256 := by
  intro b hb
  unfold utf8Bytes at hb
  split at hb
  · rw [List.mem_singleton] at hb
    omega
  · split at hb
    · rcases List.mem_cons.1 hb with h | h
      · omega
      · rw [List.mem_singleton] at h
        omega
    · split at hb
      · rcases List.mem_cons.1 hb with h | h
        · omega
        · rcases List.mem_cons.1 h with h2 | h2
          · omega
          · rw [List.mem_singleton] at h2
            omega
      · rcases List.mem_cons.1 hb with h | h
        · omega
        · rcases List.mem_cons.1 h with h2 | h2
          · omega
          · rcases List.mem_cons.1 h2 with h3 | h3
            · omega
            · rw [List.mem_singleton] at h3
              omega

theorem hexDigitChar_ne_slash : ∀ i : Fin 16, hexDigitChar i.val ≠ '/' := by
  decide

theorem pctTriple_no_slash {b : Nat} (hb : b < 256) : '/' ∉ pctTriple b := by
  intro hm
  simp only [pctTriple, List.mem_cons, List.not_mem_nil, or_false] at hm
  rcases hm with h | h | h
  · exact absurd h (by decide)
  · exact hexDigitChar_ne_slash ⟨b / 16, by omega⟩ h.symm
  · exact hexDigitChar_ne_slash ⟨b % 16, by omega⟩ h.symm

theorem flatMapL_pct_no_slash {l : List Nat} (hl : ∀ b ∈ l, b < 256) :
    '/' ∉ flatMapL pctTriple l := by
  induction l with
  | nil => simp [flatMapL]
  | cons b t ihb =>
    simp only [flatMapL, List.mem_append]
    rintro (h | h)
    · exact pctTriple_no_slash (hl b (List.mem_cons_self b t)) h
    · exact ihb (fun x hx => hl x (List.mem_cons_of_mem b hx)) h

theorem encodeURIChar_no_slash (c : Char) : '/' ∉ encodeURIChar c := by
  rw [encodeURIChar]
  split
  · rename_i h
    intro hm
    rw [List.mem_singleton] at hm
    subst hm
    exact absurd h (by decide)
  · have hv := char_toNat_valid c
    exact flatMapL_pct_no_slash (utf8Bytes_all_lt (by omega))

theorem encodeURIComponent_no_slash (s : List Char) : '/' ∉ encodeURIComponent s := by
  induction s with
  | nil => simp [encodeURIComponent, flatMapL]
  | cons c t ihb =>
    show '/' ∉ encodeURIChar c ++ encodeURIComponent t
    simp only [List.mem_append]
    rintro (h | h)
    · exact encodeURIChar_no_slash c h
    · exact ihb h

theorem encodeURIChar_ne_nil (c : Char) : encodeURIChar c ≠ [] := by
  rw [encodeURIChar]
  split
  · simp
  · obtain ⟨a, bs, hsh⟩ := utf8Bytes_shape c.toNat
    rw [hsh]
    simp [flatMapL, pctTriple]

theorem encodeURIComponent_ne_nil {s : List Char} (h : s ≠ []) :
    encodeURIComponent s ≠ [] := by
  match s with
  | c :: t =>
    show encodeURIChar c ++ encodeURIComponent t ≠ []
    simp only [ne_eq, List.append_eq_nil]
    rintro ⟨h1, -⟩
    exact encodeURIChar_ne_nil c h1

/-! ### WHATWG URL model

Model of the platform's `new URL(input)` / `new URL(input, base)` and of
URL serialization (`href` / `toString`), following the WHATWG URL
Standard's basic URL parser restricted to what the worker exercises:
the special schemes `http`/`https` (authority, port with default-port
elision, path with dot-segment removal, query, fragment, userinfo,
bracketed IPv6 hosts taken verbatim) and other schemes parsed with an
opaque path.  Not modelled: IDNA/punycode for non-ASCII hosts, `%`-
sequences inside hosts, the `file`/`ws`/`wss`/`ftp` special cases, and
`%2e` dot segments are handled but only as literal text.  All claims
are stated relative to this model. -/

structure UrlModel where
  scheme : List Char
  username : List Char
  password : List Char
  host : List Char
  port : Option Nat
  pathSegs : List (List Char)
  opq : Option (List Char)
  query : Option (List Char)
  fragment : Option (List Char)
deriving Repr, DecidableEq, Inhabited

/-- C0-control percent-encode set (plus everything non-ASCII). -/
def c0EncodeSet (c : Char) : Bool := c.toNat < 0x20 || c.toNat > 0x7E

/-- Fragment percent-encode set. -/
def fragmentEncodeSet (c : Char) : Bool :=
  c0EncodeSet c || c == ' ' || c == '"' || c == '<' || c == '>' || c.toNat == 0x60

/-- Query percent-encode set. -/
def queryEncodeSet (c : Char) : Bool :=
  c0EncodeSet c || c == ' ' || c == '"' || c == '#' || c == '<' || c == '>'

/-- Special-query percent-encode set (adds the apostrophe). -/
def specialQueryEncodeSet (c : Char) : Bool := queryEncodeSet c || c == squote

/-- Path percent-encode set. -/
def pathEncodeSet (c : Char) : Bool :=
  fragmentEncodeSet c || c == '#' || c == '?' || c.toNat == 0x7B || c.toNat == 0x7D

/-- Userinfo percent-encode set. -/
def userinfoEncodeSet (c : Char) : Bool :=
  pathEncodeSet c || c == '/' || c == ':' || c == ';' || c == '=' || c == '@' ||
  c == '[' || c == '\\' || c == ']' || c == '^' || c.toNat == 0x7C

/-- Percent-encode every character of `s` that lies in the given set
(non-ASCII characters are encoded as their UTF-8 bytes). -/
def pctEncodeWith (inSet : Char → Bool) (s : List Char) : List Char :=
  flatMapL (fun c => if inSet c then flatMapL pctTriple (utf8Bytes c.toNat) else [c]) s

def isAsciiAlpha (c : Char) : Bool := ('A' ≤ c && c ≤ 'Z') || ('a' ≤ c && c ≤ 'z')

def isDigitCh (c : Char) : Bool := '0' ≤ c && c ≤ '9'

/-- Characters allowed in a URL scheme after the first (ASCII alpha). -/
def isSchemeChar (c : Char) : Bool :=
  isAsciiAlpha c || isDigitCh c || c == '+' || c == '-' || c == '.'

/-- Split `scheme ':' rest`; the scheme is lowercased.  `none` when the
input does not begin with a valid scheme followed by a colon. -/
def parseSchemeSplit (s : List Char) : Option (List Char × List Char) :=
  match s with
  | [] => none
  | c :: _ =>
    if isAsciiAlpha c then
      let pre := s.takeWhile isSchemeChar
      match s.drop pre.length with
      | ':' :: r => some (lowerL pre, r)
      | _ => none
    else none

def isC0OrSpace (c : Char) : Bool := c.toNat ≤ 0x20

def isTabOrNL (c : Char) : Bool := c == '\t' || c == '\n' || c == '\r'

/-- Input preprocessing of the basic URL parser: trim leading/trailing
C0 controls and spaces, remove all tabs and newlines. -/
def urlPreprocess (s : List Char) : List Char :=
  (((s.dropWhile isC0OrSpace).reverse.dropWhile isC0OrSpace).reverse).filter
    (fun c => !isTabOrNL c)

/-- For special URLs a backslash acts as a slash. -/
def isSlashy (c : Char) : Bool := c == '/' || c == '\\'

/-- Characters ending the authority component. -/
def isAuthorityEnd (c : Char) : Bool := c == '/' || c == '\\' || c == '?' || c == '#'

/-- Forbidden host code points. -/
def forbiddenHostChar (c : Char) : Bool :=
  c.toNat == 0 || c == '\t' || c == '\n' || c == '\r' || c == ' ' || c == '#' ||
  c == '/' || c == ':' || c == '<' || c == '>' || c == '?' || c == '@' ||
  c == '[' || c == '\\' || c == ']' || c == '^' || c.toNat == 0x7C

/-- Parse an (optional) port from the digits after `:`; empty means no
port; a non-digit or a value of 2^16 or more is an error. -/
def parsePortDigits (s : List Char) : Option (Option Nat) :=
  if s = [] then some none
  else if s.all isDigitCh then
    if s.foldl (fun acc c => acc * 10 + (c.toNat - 48)) 0 < 65536 then
      some (some (s.foldl (fun acc c => acc * 10 + (c.toNat - 48)) 0))
    else none
  else none

/-- Default port of a special scheme. -/
def defaultPort (scheme : List Char) : Option Nat :=
  if scheme = ("http".data) then some 80
  else if scheme = ("https".data) then some 443 else none

/-- Parse `host[:port]`; the host is lowercased (ASCII), a default port
is elided, and forbidden host characters are rejected. -/
def parseHostPort (scheme : List Char) (hp : List Char) : Option (List Char × Option Nat) :=
  match hp with
  | '[' :: rest =>
    let inner := rest.takeWhile (fun c => c != ']')
    match rest.drop inner.length with
    | ']' :: tail =>
      if inner = [] then none
      else
        match tail with
        | [] => some ('[' :: inner ++ [']'], none)
        | ':' :: ptail =>
          match parsePortDigits ptail with
          | some p => some ('[' :: inner ++ [']'], if p = defaultPort scheme then none else p)
          | none => none
        | _ => none
    | _ => none
  | _ =>
    let hostRaw := hp.takeWhile (fun c => c != ':')
    if hostRaw = [] then none
    else if hostRaw.any forbiddenHostChar then none
    else
      match hp.drop hostRaw.length with
      | [] => some (lowerL hostRaw, none)
      | ':' :: ptail =>
        match parsePortDigits ptail with
        | some p => some (lowerL hostRaw, if p = defaultPort scheme then none else p)
        | none => none
      | _ => none

/-- Split the authority into optional userinfo (before the last `@`)
and host-port. -/
def splitUserinfo (auth : List Char) : Option (List Char) × List Char :=
  if auth.contains '@' then
    (some (auth.take (auth.length - (auth.reverse.takeWhile (fun c => c != '@')).length - 1)),
     (auth.reverse.takeWhile (fun c => c != '@')).reverse)
  else (none, auth)

/-- Split userinfo at the first `:` into username and password, each
percent-encoded with the userinfo set. -/
def parseUserinfo (ui : List Char) : List Char × List Char :=
  let u := ui.takeWhile (fun c => c != ':')
  match ui.drop u.length with
  | ':' :: pw => (pctEncodeWith userinfoEncodeSet u, pctEncodeWith userinfoEncodeSet pw)
  | _ => (pctEncodeWith userinfoEncodeSet u, [])

/-- Split a string on every character satisfying `p`. -/
def splitOnPred (p : Char → Bool) : List Char → List (List Char)
  | [] => [[]]
  | c :: rest =>
    match splitOnPred p rest with
    | [] => [[]]
    | cur :: rs => if p c then [] :: cur :: rs else (c :: cur) :: rs

/-- A single-dot path segment (`.` or a `%2e` spelling). -/
def isSingleDotSeg (seg : List Char) : Bool :=
  lowerL seg == (".".data) || lowerL seg == ("%2e".data)

/-- A double-dot path segment. -/
def isDoubleDotSeg (seg : List Char) : Bool :=
  lowerL seg == ("..".data) || lowerL seg == (".%2e".data) ||
  lowerL seg == ("%2e.".data) || lowerL seg == ("%2e%2e".data)

/-- The path state of the basic URL parser: process raw segments with
dot-segment removal, percent-encoding each kept segment. -/
def processSegsGo (acc : List (List Char)) : List (List Char) → List (List Char)
  | [] => acc
  | [b] =>
    if isDoubleDotSeg b then acc.dropLast ++ [[]]
    else if isSingleDotSeg b then acc ++ [[]]
    else acc ++ [pctEncodeWith pathEncodeSet b]
  | b :: b2 :: t =>
    if isDoubleDotSeg b then processSegsGo acc.dropLast (b2 :: t)
    else if isSingleDotSeg b then processSegsGo acc (b2 :: t)
    else processSegsGo (acc ++ [pctEncodeWith pathEncodeSet b]) (b2 :: t)

/-- Split the remainder into path characters, query and fragment. -/
def splitPQF (s : List Char) : List Char × Option (List Char) × Option (List Char) :=
  let p := s.takeWhile (fun c => c != '?' && c != '#')
  match s.drop p.length with
  | '?' :: r =>
    let q := r.takeWhile (fun c => c != '#')
    match r.drop q.length with
    | '#' :: f => (p, some q, some f)
    | _ => (p, some q, none)
  | '#' :: f => (p, none, some f)
  | _ => (p, none, none)

/-- Authority state followed by path/query/fragment, for a special
scheme. -/
def parseAuthorityPath (scheme : List Char) (s : List Char) : Option UrlModel :=
  let auth := s.takeWhile (fun c => !isAuthorityEnd c)
  let rest := s.drop auth.length
  let ui := splitUserinfo auth
  match parseHostPort scheme ui.2 with
  | none => none
  | some hp =>
    let up := match ui.1 with
      | some u => parseUserinfo u
      | none => ([], [])
    let pqf := match rest with
      | c :: tail => if isSlashy c then splitPQF tail else splitPQF rest
      | [] => splitPQF []
    some { scheme := scheme, username := up.1, password := up.2,
           host := hp.1, port := hp.2,
           pathSegs := processSegsGo [] (splitOnPred isSlashy pqf.1),
           opq := none,
           query := pqf.2.1.map (pctEncodeWith specialQueryEncodeSet),
           fragment := pqf.2.2.map (pctEncodeWith fragmentEncodeSet) }

/-- Opaque-path state for non-special schemes. -/
def parseOpaquePath (scheme : List Char) (rest : List Char) : Option UrlModel :=
  let pqf := splitPQF rest
  some { scheme := scheme, username := [], password := [], host := [], port := none,
         pathSegs := [],
         opq := some (pctEncodeWith c0EncodeSet pqf.1),
         query := pqf.2.1.map (pctEncodeWith queryEncodeSet),
         fragment := pqf.2.2.map (pctEncodeWith fragmentEncodeSet) }

/-- Path-absolute reference against base `b` (input after the leading
slash). -/
def pathAbsolute (b : UrlModel) (afterSlash : List Char) : Option UrlModel :=
  let pqf := splitPQF afterSlash
  some { b with
         pathSegs := processSegsGo [] (splitOnPred isSlashy pqf.1),
         query := pqf.2.1.map (pctEncodeWith specialQueryEncodeSet),
         fragment := pqf.2.2.map (pctEncodeWith fragmentEncodeSet) }

/-- The relative state of the basic URL parser (base is special and
non-opaque). -/
def relativeResolve (b : UrlModel) (s : List Char) : Option UrlModel :=
  match s with
  | [] => some { b with fragment := none }
  | c :: rest =>
    if isSlashy c then
      match rest with
      | c2 :: rest2 =>
        if isSlashy c2 then parseAuthorityPath b.scheme (rest2.dropWhile isSlashy)
        else pathAbsolute b rest
      | [] => pathAbsolute b []
    else if c = '?' then
      let q := rest.takeWhile (fun x => x != '#')
      some { b with
             query := some (pctEncodeWith specialQueryEncodeSet q),
             fragment := (match rest.drop q.length with
               | '#' :: f => some (pctEncodeWith fragmentEncodeSet f)
               | _ => none) }
    else if c = '#' then
      some { b with fragment := some (pctEncodeWith fragmentEncodeSet rest) }
    else
      let pqf := splitPQF s
      some { b with
             pathSegs := processSegsGo b.pathSegs.dropLast (splitOnPred isSlashy pqf.1),
             query := pqf.2.1.map (pctEncodeWith specialQueryEncodeSet),
             fragment := pqf.2.2.map (pctEncodeWith fragmentEncodeSet) }

/-- Does the remainder after the scheme start with two slashes? -/
def twoSlashes : List Char → Bool
  | a :: b :: _ => isSlashy a && isSlashy b
  | _ => false

/-- The basic URL parser: `parseURLWith input base` models
`new URL(input)` (`base = none`) and `new URL(input, base)`. -/
def parseURLWith (input : List Char) (base : Option UrlModel) : Option UrlModel :=
  let s := urlPreprocess input
  match parseSchemeSplit s with
  | some sr =>
    if sr.1 = ("http".data) ∨ sr.1 = ("https".data) then
      match base with
      | some b =>
        if b.scheme = sr.1 ∧ ¬ twoSlashes sr.2 then relativeResolve b sr.2
        else parseAuthorityPath sr.1 (sr.2.dropWhile isSlashy)
      | none => parseAuthorityPath sr.1 (sr.2.dropWhile isSlashy)
    else parseOpaquePath sr.1 sr.2
  | none =>
    match base with
    | none => none
    | some b =>
      match b.opq with
      | some _ =>
        match s with
        | '#' :: f => some { b with fragment := some (pctEncodeWith fragmentEncodeSet f) }
        | _ => none
      | none => relativeResolve b s

/-- `new URL(input)`. -/
def urlParse (input : List Char) : Option UrlModel := parseURLWith input none

/-- `new URL(input, base)`. -/
def urlResolve (input : List Char) (base : UrlModel) : Option UrlModel :=
  parseURLWith input (some base)

/-- Serialization of a port. -/
def serializePort : Option Nat → List Char
  | none => []
  | some p => ':' :: natDigits p

/-- URL serialization (`href` / `toString`). -/
def serializeUrl (u : UrlModel) : List Char :=
  u.scheme ++ ':' ::
    ((match u.opq with
      | some o => o
      | none =>
        ("//".data) ++
        (if u.username = [] ∧ u.password = [] then []
         else u.username ++ (if u.password = [] then [] else ':' :: u.password) ++ ("@".data)) ++
        u.host ++ serializePort u.port ++
        '/' :: joinChar '/' u.pathSegs) ++
     (match u.query with | some q => '?' :: q | none => []) ++
     (match u.fragment with | some f => '#' :: f | none => []))

/-- The `host` property (`hostname:port`). -/
def urlHostProp (u : UrlModel) : List Char := u.host ++ serializePort u.port

/-- The `origin` property for special schemes. -/
def urlOriginProp (u : UrlModel) : List Char :=
  u.scheme ++ ("://".data) ++ u.host ++ serializePort u.port

/-- The `protocol` property. -/
def urlProtocolProp (u : UrlModel) : List Char := u.scheme ++ (":".data)


/-! ### Fetch `Headers` model

A header list with case-insensitive names; `get` joins multiple values
with a comma and space as the Fetch specification's `Headers.get` does;
`set` removes existing entries of that name and appends the new one. -/

abbrev HeadersL := List (List Char × List Char)

def nameMatches (a b : List Char) : Bool := lowerL a == lowerL b

def headersGetAll (n : List Char) (h : HeadersL) : List (List Char) :=
  (h.filter (fun p => nameMatches p.1 n)).map (fun p => p.2)

def headersHas (n : List Char) (h : HeadersL) : Bool :=
  h.any (fun p => nameMatches p.1 n)

def joinCommaSpace : List (List Char) → List Char
  | [] => []
  | [x] => x
  | x :: y :: t => x ++ (", ".data) ++ joinCommaSpace (y :: t)

def headersGet (n : List Char) (h : HeadersL) : Option (List Char) :=
  match headersGetAll n h with
  | [] => none
  | vs => some (joinCommaSpace vs)

def headersDelete (n : List Char) (h : HeadersL) : HeadersL :=
  h.filter (fun p => !nameMatches p.1 n)

def headersSet (n v : List Char) (h : HeadersL) : HeadersL :=
  headersDelete n h ++ [(n, v)]

def headersAppend (n v : List Char) (h : HeadersL) : HeadersL := h ++ [(n, v)]

/-! ### The worker's functions (src/Workers.js) -/

/-- The test `/^https?:\/\//i.test(s)` (lines 20 and 176). -/
def startsWithHttpScheme (s : List Char) : Bool :=
  hasPrefixCI ("http://".data) s || hasPrefixCI ("https://".data) s

/-- The part of the Domain regex after the optional `;`: greedy `\s*`,
the literal `Domain=` case-insensitively, then one or more non-`;`
characters (greedy); returns the remainder after the match. -/
def matchDomainTail (l1 : List Char) : Option (List Char) :=
  let l2 := l1.dropWhile isJsSpace
  if hasPrefixCI ("domain=".data) l2 then
    let v := (l2.drop 7).takeWhile (fun c => c != ';')
    if v = [] then none else some ((l2.drop 7).drop v.length)
  else none

/-- The regex `/;?\s*Domain=[^;]+/i` anchored at the current position:
an optional `;` followed by `matchDomainTail`.  The greedy quantifiers
need no backtracking here: `Domain` starts with neither `;` nor a
space. -/
def matchDomainAt (s : List Char) : Option (List Char) :=
  matchDomainTail (match s with
    | ';' :: t => t
    | _ => s)

/-- First-match replace (with the empty string) of the Domain regex. -/
def replaceDomainOnce : List Char → List Char
  | [] => []
  | c :: rest =>
    match matchDomainAt (c :: rest) with
    | some after => after
    | none => c :: replaceDomainOnce rest

/-- `rewriteSetCookie(cookieStr)` (lines 97-100):
`cookieStr.replace(/;?\s*Domain=[^;]+/i, '')`. -/
def rewriteSetCookie (cookieStr : List Char) : List Char := replaceDomainOnce cookieStr

/-- `rewriteLocation(location, target, proxyOrigin)` (lines 102-110);
the `catch` branch returns the location unchanged. -/
def rewriteLocation (location : List Char) (target : UrlModel) (proxyOrigin : List Char) :
    List Char :=
  match urlResolve location target with
  | some absoluteUrl =>
    proxyOrigin ++ ("/proxy/".data) ++ encodeURIComponent (serializeUrl absoluteUrl)
  | none => location

/-- `rewriteAttributeValue(attrValue, target)` (lines 172-186). -/
def rewriteAttributeValue (attrValue : List Char) (target : UrlModel) : List Char :=
  match urlResolve attrValue target with
  | some url =>
    if ¬ startsWithHttpScheme (serializeUrl url) then attrValue
    else ("/proxy/".data) ++ encodeURIComponent (serializeUrl url)
  | none => attrValue

/-! ### HTMLRewriter element handlers -/

/-- An HTML element as the `HTMLRewriter` handlers see it: its
attribute list (names compared case-insensitively). -/
structure ElementM where
  attrs : List (List Char × List Char)
deriving Repr, DecidableEq

def getAttributeM (el : ElementM) (name : List Char) : Option (List Char) :=
  match el.attrs.filter (fun p => nameMatches p.1 name) with
  | [] => none
  | p :: _ => some p.2

def setAttrGo (name v : List Char) : List (List Char × List Char) → List (List Char × List Char)
  | [] => [(name, v)]
  | p :: t => if nameMatches p.1 name then (p.1, v) :: t else p :: setAttrGo name v t

def setAttributeM (el : ElementM) (name v : List Char) : ElementM :=
  ⟨setAttrGo name v el.attrs⟩

/-- `rewriteAttr(el, attrName, target)` (lines 164-170); `if (val)` skips
a missing or empty attribute. -/
def rewriteAttr (el : ElementM) (attrName : List Char) (target : UrlModel) : ElementM :=
  match getAttributeM el attrName with
  | some val =>
    if val = [] then el else setAttributeM el attrName (rewriteAttributeValue val target)
  | none => el

/-- The `meta[http-equiv="refresh"]` element handler (lines 145-160). -/
def metaRefreshHandler (target : UrlModel) (el : ElementM) : ElementM :=
  match getAttributeM el ("content".data) with
  | some content =>
    if content = [] then el
    else
      match splitOnChar ';' content with
      | [p0, p1] =>
        if hasPrefixCI ("url=".data) (trimJs p1) then
          setAttributeM el ("content".data)
            (p0 ++ ("; url=".data) ++ rewriteAttributeValue ((trimJs p1).drop 4) target)
        else el
      | _ => el
  | none => el

/-- The rewrite rules installed on the platform's `HTMLRewriter`
(lines 113-161): selector paired with element handler. -/
def htmlRules (target : UrlModel) : List (List Char × (ElementM → ElementM)) :=
  [ (("a".data), fun el => rewriteAttr el ("href".data) target),
    (("img".data), fun el => rewriteAttr el ("src".data) target),
    (("link".data), fun el => rewriteAttr el ("href".data) target),
    (("script".data), fun el => rewriteAttr el ("src".data) target),
    (("form".data), fun el => rewriteAttr el ("action".data) target),
    (("base".data), fun el => rewriteAttr el ("href".data) target),
    (("meta[http-equiv=\"refresh\"]".data), metaRefreshHandler target) ]

/-- The streaming traversal of `HTMLRewriter` is a platform built-in,
not worker code: it is taken as an oracle mapping a rule list and an
HTML text to the transformed text. -/
abbrev RewriterEngine := List (List Char × (ElementM → ElementM)) → List Char → List Char

/-- `applyHTMLRewriter(response, target)` (lines 113-162) as a body
transformation. -/
def applyHTMLRewriter (engine : RewriterEngine) (target : UrlModel) (html : List Char) :
    List Char :=
  engine (htmlRules target) html

/-! ### `rewriteInlineJS` (lines 188-224) -/

/-- Match a literal case-insensitively at the head of `s`; returns the
matched text (in its original case) and the rest. -/
def matchLitCI (lit s : List Char) : Option (List Char × List Char) :=
  if hasPrefixCI lit s then some (s.take lit.length, s.drop lit.length) else none

def isQuoteCh (c : Char) : Bool := c == '"' || c == squote

/-- Match the group `(lit1\s*<mid>\s*)` (e.g. `window\.location\s*=\s*`
or `window\.open\s*\(\s*`), case-insensitively, returning the matched
text and the rest. -/
def matchCallPrefix (lit1 : List Char) (mid : Char) (s : List Char) :
    Option (List Char × List Char) :=
  match matchLitCI lit1 s with
  | none => none
  | some m1 =>
    let sp1 := m1.2.takeWhile isJsSpace
    match m1.2.drop sp1.length with
    | c :: r2 =>
      if c = mid then
        some (m1.1 ++ sp1 ++ [c] ++ r2.takeWhile isJsSpace,
              r2.drop (r2.takeWhile isJsSpace).length)
      else none
    | [] => none

/-- Match `(['"])(https?:\/\/[^'"]+)`: a quote, then an `http(s)://`
prefix case-insensitively, then at least one non-quote character
(greedy, stopping before the next quote of either kind). -/
def matchQuotedAbs (s : List Char) : Option (Char × List Char × List Char) :=
  match s with
  | q :: r =>
    if isQuoteCh q then
      let pfx : List Char :=
        if hasPrefixCI ("https://".data) r then r.take 8
        else if hasPrefixCI ("http://".data) r then r.take 7
        else []
      if pfx = [] then none
      else
        let body := (r.drop pfx.length).takeWhile (fun c => !isQuoteCh c)
        if body = [] then none
        else some (q, pfx ++ body, (r.drop pfx.length).drop body.length)
    else none
  | [] => none

/-- Match `(['"])(\/[^'"]+)`: a quote, a slash, then at least one more
non-quote character. -/
def matchQuotedRel (s : List Char) : Option (Char × List Char × List Char) :=
  match s with
  | q :: r =>
    if isQuoteCh q then
      match r with
      | '/' :: r2 =>
        let body := r2.takeWhile (fun c => !isQuoteCh c)
        if body = [] then none
        else some (q, '/' :: body, r2.drop body.length)
      | _ => none
    else none
  | [] => none

/-- One absolute pattern at the current position; the replacement is
`prefix + quote + proxyOrigin + "/proxy/" + encodeURIComponent(url) +
quote` (line 197-200).  Returns (replacement, rest-after-match). -/
def absPatternAt (lit1 : List Char) (mid : Char) (proxyOrigin : List Char)
    (s : List Char) : Option (List Char × List Char) :=
  match matchCallPrefix lit1 mid s with
  | none => none
  | some pm =>
    match matchQuotedAbs pm.2 with
    | none => none
    | some (q, origUrl, rest) =>
      some (pm.1 ++ [q] ++ proxyOrigin ++ ("/proxy/".data) ++
        encodeURIComponent origUrl ++ [q], rest)

/-- One relative pattern at the current position (lines 211-220); when
`new URL(origPath, target)` throws, the replacer returns the match
itself. -/
def relPatternAt (lit1 : List Char) (mid : Char) (target : UrlModel) (proxyOrigin : List Char)
    (s : List Char) : Option (List Char × List Char) :=
  match matchCallPrefix lit1 mid s with
  | none => none
  | some pm =>
    match matchQuotedRel pm.2 with
    | none => none
    | some (q, origPath, rest) =>
      match urlResolve origPath target with
      | some absoluteUrl =>
        some (pm.1 ++ [q] ++ proxyOrigin ++ ("/proxy/".data) ++
          encodeURIComponent (serializeUrl absoluteUrl) ++ [q], rest)
      | none => some (pm.1 ++ [q] ++ origPath, rest)

/-- Global regex replace: scan left to right; at a match emit the
replacement and continue after the matched text, otherwise keep the
character.  (Fuel is the remaining length; every match here consumes at
least one character, so the fuel never runs out.) -/
def replaceAllGo (matchAt : List Char → Option (List Char × List Char)) :
    Nat → List Char → List Char
  | _, [] => []
  | 0, s => s
  | fuel + 1, c :: rest =>
    match matchAt (c :: rest) with
    | some ra => ra.1 ++ replaceAllGo matchAt fuel ra.2
    | none => c :: replaceAllGo matchAt fuel rest

def replaceAllG (matchAt : List Char → Option (List Char × List Char)) (s : List Char) :
    List Char :=
  replaceAllGo matchAt (s.length + 1) s

/-- `rewriteInlineJS(html, target, proxyOrigin)` (lines 188-224): the
four absolute patterns in order, then the four relative patterns. -/
def rewriteInlineJS (html : List Char) (target : UrlModel) (proxyOrigin : List Char) :
    List Char :=
  let h1 := replaceAllG (absPatternAt ("window.location".data) '=' proxyOrigin) html
  let h2 := replaceAllG (absPatternAt ("location.href".data) '=' proxyOrigin) h1
  let h3 := replaceAllG (absPatternAt ("window.open".data) '(' proxyOrigin) h2
  let h4 := replaceAllG (absPatternAt ("document.location".data) '=' proxyOrigin) h3
  let h5 := replaceAllG (relPatternAt ("window.location".data) '=' target proxyOrigin) h4
  let h6 := replaceAllG (relPatternAt ("location.href".data) '=' target proxyOrigin) h5
  let h7 := replaceAllG (relPatternAt ("window.open".data) '(' target proxyOrigin) h6
  replaceAllG (relPatternAt ("document.location".data) '=' target proxyOrigin) h7

/-! ### `injectFakeEnvScript` (lines 226-301) -/

def fakeEnvScript (fakeHost fakeOrigin fakeProtocol proxyOrigin : List Char) : List Char :=
  ("\n".data) ++
  ("<script>\n".data) ++
  ("(function()\x7b\n".data) ++
  ("  // 伪造window.location关键属性\n".data) ++
  ("  Object.defineProperty(window.location, \x27hostname\x27, \x7b get: () => \"".data) ++
  fakeHost ++
  ("\" \x7d);\n".data) ++
  ("  Object.defineProperty(window.location, \x27host\x27, \x7b get: () => \"".data) ++
  fakeHost ++
  ("\" \x7d);\n".data) ++
  ("  Object.defineProperty(window.location, \x27origin\x27, \x7b get: () => \"".data) ++
  fakeOrigin ++
  ("\" \x7d);\n".data) ++
  ("  Object.defineProperty(window.location, \x27protocol\x27, \x7b get: () => \"".data) ++
  fakeProtocol ++
  ("\" \x7d);\n".data) ++
  ("\n".data) ++
  ("  // 伪造document.domain访问\n".data) ++
  ("  Object.defineProperty(document, \x27domain\x27, \x7b\n".data) ++
  ("    get: () => \"".data) ++
  fakeHost ++
  ("\",\n".data) ++
  ("    set: () => \x7b\x7d\n".data) ++
  ("  \x7d);\n".data) ++
  ("\n".data) ++
  ("  // 劫持document.cookie访问\n".data) ++
  ("  const originalCookieDescriptor = Object.getOwnPropertyDescriptor(Document.prototype, \x27cookie\x27) ||\n".data) ++
  ("    Object.getOwnPropertyDescriptor(HTMLDocument.prototype, \x27cookie\x27);\n".data) ++
  ("\n".data) ++
  ("  Object.defineProperty(document, \x27cookie\x27, \x7b\n".data) ++
  ("    get() \x7b\n".data) ++
  ("      return originalCookieDescriptor.get.call(document);\n".data) ++
  ("    \x7d,\n".data) ++
  ("    set(value) \x7b\n".data) ++
  ("      return originalCookieDescriptor.set.call(document, value);\n".data) ++
  ("    \x7d\n".data) ++
  ("  \x7d);\n".data) ++
  ("\n".data) ++
  ("  // 拦截window.location.assign和replace\n".data) ++
  ("  const originalAssign = window.location.assign;\n".data) ++
  ("  window.location.assign = function(url) \x7b\n".data) ++
  ("    if (typeof url === \x27string\x27) \x7b\n".data) ++
  ("      const newUrl = \"".data) ++
  proxyOrigin ++
  ("/proxy/\" + encodeURIComponent(new URL(url, window.location.origin).toString());\n".data) ++
  ("      return originalAssign.call(window.location, newUrl);\n".data) ++
  ("    \x7d\n".data) ++
  ("    return originalAssign.call(window.location, url);\n".data) ++
  ("  \x7d;\n".data) ++
  ("\n".data) ++
  ("  const originalReplace = window.location.replace;\n".data) ++
  ("  window.location.replace = function(url) \x7b\n".data) ++
  ("    if (typeof url === \x27string\x27) \x7b\n".data) ++
  ("      const newUrl = \"".data) ++
  proxyOrigin ++
  ("/proxy/\" + encodeURIComponent(new URL(url, window.location.origin).toString());\n".data) ++
  ("      return originalReplace.call(window.location, newUrl);\n".data) ++
  ("    \x7d\n".data) ++
  ("    return originalReplace.call(window.location, url);\n".data) ++
  ("  \x7d;\n".data) ++
  ("\n".data) ++
  ("  // 拦截history.pushState和replaceState\n".data) ++
  ("  const originalPushState = history.pushState;\n".data) ++
  ("  history.pushState = function(state, title, url) \x7b\n".data) ++
  ("    if (typeof url === \x27string\x27) \x7b\n".data) ++
  ("      const newUrl = \"/proxy/\" + encodeURIComponent(new URL(url, window.location.origin).toString());\n".data) ++
  ("      return originalPushState.call(history, state, title, newUrl);\n".data) ++
  ("    \x7d\n".data) ++
  ("    return originalPushState.call(history, state, title, url);\n".data) ++
  ("  \x7d;\n".data) ++
  ("\n".data) ++
  ("  const originalReplaceState = history.replaceState;\n".data) ++
  ("  history.replaceState = function(state, title, url) \x7b\n".data) ++
  ("    if (typeof url === \x27string\x27) \x7b\n".data) ++
  ("      const newUrl = \"/proxy/\" + encodeURIComponent(new URL(url, window.location.origin).toString());\n".data) ++
  ("      return originalReplaceState.call(history, state, title, newUrl);\n".data) ++
  ("    \x7d\n".data) ++
  ("    return originalReplaceState.call(history, state, title, url);\n".data) ++
  ("  \x7d;\n".data) ++
  ("\x7d)();\n".data) ++
  ("</script>\n".data) ++
  ("  ".data)

/-- First-match replace of a case-insensitive literal (the regex
`/<\/head>/i`). -/
def replaceFirstCI (pat repl : List Char) : List Char → List Char
  | [] => []
  | c :: rest =>
    if hasPrefixCI pat (c :: rest) then repl ++ (c :: rest).drop pat.length
    else c :: replaceFirstCI pat repl rest

/-- `injectFakeEnvScript(html, target, proxyOrigin)` (lines 226-301).
The final line models `html.replace(/<\/head>/i, script + '</head>') ||
(script + html)`: `String.prototype.replace` returns the original
string when there is no match, so the right operand of `||` is taken
only when the `replace` result is the empty string. -/
def injectFakeEnvScript (html : List Char) (target : UrlModel) (proxyOrigin : List Char) :
    List Char :=
  let script := fakeEnvScript (urlHostProp target) (urlOriginProp target)
    (urlProtocolProp target) proxyOrigin
  let replaced := replaceFirstCI ("</head>".data) (script ++ ("</head>".data)) html
  if replaced = [] then script ++ html else replaced

/-! ### `handleRequest` (lines 5-95) -/

inductive RedirectMode
  | follow
  | error
  | manual
deriving Repr, DecidableEq

/-- The inbound request as the worker reads it: `pathname` and `origin`
of `new URL(request.url)`, plus method, headers and optional body. -/
structure JsRequest where
  pathname : List Char
  origin : List Char
  method : List Char
  headers : HeadersL
  body : Option (List Char)
deriving Repr, DecidableEq

/-- The outbound `new Request(...)` built on lines 38-43. -/
structure OutRequest where
  url : List Char
  method : List Char
  headers : HeadersL
  body : Option (List Char)
  redirect : RedirectMode
deriving Repr, DecidableEq

/-- A response: status, headers, body (bodies are modelled as text). -/
structure JsResponse where
  status : Nat
  headers : HeadersL
  body : List Char
deriving Repr, DecidableEq

/-- Lines 15-30: decode and validate the embedded target URL; `none`
models the `catch` (→ 400); an empty encoded segment defaults to the
fixed Google URL without validation (lines 24-27). -/
def decodeTargetUrl (encodedUrl : List Char) : Option (List Char) :=
  if encodedUrl ≠ [] then
    match decodeURIComponent encodedUrl with
    | none => none
    | some t0 =>
      let t := if startsWithHttpScheme t0 then t0 else ("https://".data) ++ t0
      match urlParse t with
      | some _ => some t
      | none => none
  else some ("https://www.google.com".data)

/-- Lines 34-43: copy the inbound headers, force `Host` to the target
host, keep method, drop the body for GET/HEAD, and never auto-follow
redirects. -/
def buildOutboundRequest (request : JsRequest) (target : UrlModel) : OutRequest :=
  { url := serializeUrl target,
    method := request.method,
    headers := headersSet ("Host".data) (urlHostProp target) request.headers,
    body := if request.method ≠ ("GET".data) ∧ request.method ≠ ("HEAD".data)
            then request.body else none,
    redirect := .manual }

/-- Lines 49-68: rewrite `Set-Cookie`, rewrite `Location`, delete the
three security headers.  All reads are from the upstream response's
headers, all writes to the copied header list. -/
def transformResponseHeaders (response : JsResponse) (target : UrlModel)
    (proxyOrigin : List Char) : HeadersL :=
  let h0 := response.headers
  let h1 :=
    if headersHas ("Set-Cookie".data) h0 then
      ((headersGetAll ("Set-Cookie".data) h0).map rewriteSetCookie).foldl
        (fun acc cookie => headersAppend ("Set-Cookie".data) cookie acc)
        (headersDelete ("Set-Cookie".data) h0)
    else h0
  let h2 :=
    if headersHas ("Location".data) h0 then
      headersSet ("Location".data)
        (rewriteLocation ((headersGet ("Location".data) h0).getD []) target proxyOrigin) h1
    else h1
  headersDelete ("X-Content-Type-Options".data)
    (headersDelete ("X-Frame-Options".data)
      (headersDelete ("Content-Security-Policy".data) h2))

/-- `handleRequest(request)` (lines 5-95).  `fetchFn` is the platform's
`fetch` (`none` models a thrown network error) and `engine` the
platform's `HTMLRewriter` traversal. -/
def handleRequest (fetchFn : OutRequest → Option JsResponse) (engine : RewriterEngine)
    (request : JsRequest) : JsResponse :=
  let pathSegments := splitOnChar '/' request.pathname
  if pathSegments[1]? ≠ some ("proxy".data) then
    { status := 501, headers := [],
      body := ("非法访问，路径格式应为 /proxy/<encoded-url>".data) }
  else
    match decodeTargetUrl (joinChar '/' (pathSegments.drop 2)) with
    | none => { status := 400, headers := [], body := ("Invalid URL".data) }
    | some targetUrl =>
      -- line 32: `new URL(targetUrl)` cannot throw here, because the
      -- decoder validated `targetUrl` (and the default parses as well)
      let target := (urlParse targetUrl).getD default
      match fetchFn (buildOutboundRequest request target) with
      | none =>
        { status := 500, headers := [], body := ("Error fetching the target site.".data) }
      | some response =>
        let newHeaders := transformResponseHeaders response target request.origin
        if containsStr ("text/html".data)
            ((headersGet ("Content-Type".data) response.headers).getD []) then
          { status := response.status, headers := newHeaders,
            body := injectFakeEnvScript
              (rewriteInlineJS (applyHTMLRewriter engine target response.body)
                target request.origin)
              target request.origin }
        else
          { status := response.status, headers := newHeaders, body := response.body }


/-! ### Utility lemmas -/

theorem hasPrefixL_append (p r : List Char) : hasPrefixL p (p ++ r) = true := by
  induction p with
  | nil => rfl
  | cons c t ih => simp [hasPrefixL, ih]

theorem hasPrefixL_exists {p s : List Char} (h : hasPrefixL p s = true) :
    ∃ r, s = p ++ r := by
  induction p generalizing s with
  | nil => exact ⟨s, rfl⟩
  | cons c t ih =>
    match s with
    | [] => exact absurd h (by simp [hasPrefixL])
    | d :: s' =>
      simp only [hasPrefixL, Bool.and_eq_true, beq_iff_eq] at h
      obtain ⟨rfl, h2⟩ := h
      obtain ⟨r, rfl⟩ := ih h2
      exact ⟨r, rfl⟩

theorem lowerL_append (a b : List Char) : lowerL (a ++ b) = lowerL a ++ lowerL b :=
  List.map_append toLowerCh a b

theorem splitOnChar_ne_nil (sep : Char) (l : List Char) : splitOnChar sep l ≠ [] := by
  cases l with
  | nil => simp [splitOnChar]
  | cons c t =>
    unfold splitOnChar
    split
    · simp
    · split <;> simp

theorem splitOnChar_no_sep {sep : Char} {l : List Char} (h : sep ∉ l) :
    splitOnChar sep l = [l] := by
  induction l with
  | nil => rfl
  | cons c t ih =>
    have hc : c ≠ sep := fun e => h (e ▸ List.mem_cons_self c t)
    have ht : sep ∉ t := fun m => h (List.mem_cons_of_mem c m)
    unfold splitOnChar
    rw [ih ht]
    simp [hc]

theorem splitOnChar_cons_sep (sep : Char) (t : List Char) :
    splitOnChar sep (sep :: t) = [] :: splitOnChar sep t := by
  have hne := splitOnChar_ne_nil sep t
  match h : splitOnChar sep t with
  | [] => exact absurd h hne
  | cur :: rs =>
    conv_lhs => rw [splitOnChar]
    rw [h]
    simp

theorem splitOnChar_append {sep : Char} {a : List Char} (h : sep ∉ a) (b : List Char) :
    splitOnChar sep (a ++ sep :: b) = a :: splitOnChar sep b := by
  induction a with
  | nil => exact splitOnChar_cons_sep sep b
  | cons c t ih =>
    have hc : c ≠ sep := fun e => h (e ▸ List.mem_cons_self c t)
    have ht : sep ∉ t := fun m => h (List.mem_cons_of_mem c m)
    show splitOnChar sep (c :: (t ++ sep :: b)) = (c :: t) :: splitOnChar sep b
    conv_lhs => rw [splitOnChar]
    rw [ih ht]
    simp [hc]

/-! ### C1: the URL codec round-trip -/

/-- Encoding an absolute URL into a proxy path: `'/proxy/' +
encodeURIComponent(url)` (lines 105-106, 180-181, 198). -/
def encodeProxyPath (u : List Char) : List Char :=
  ("/proxy/".data) ++ encodeURIComponent u

/-- Decoding a proxy pathname (lines 9-30): the path-segment check
followed by target decoding; `none` covers both the non-`/proxy/`
rejection and the invalid-URL failure. -/
def decodeProxyPath (pathname : List Char) : Option (List Char) :=
  if (splitOnChar '/' pathname)[1]? ≠ some ("proxy".data) then none
  else decodeTargetUrl (joinChar '/' ((splitOnChar '/' pathname).drop 2))

/-- C1: for every valid absolute http(s) URL `u` (it passes the
`/^https?:\/\//i` test and parses), decoding the proxy path obtained by
encoding `u` yields `u` again, and therefore decoding followed by
re-encoding is idempotent on such proxy paths. -/
theorem decode_encode_roundtrip (u : List Char)
    (hscheme : startsWithHttpScheme u = true) (hparse : (urlParse u).isSome) :
    decodeProxyPath (encodeProxyPath u) = some u ∧
    (decodeProxyPath (encodeProxyPath u)).map encodeProxyPath =
      some (encodeProxyPath u) := by
  have hu_ne : u ≠ [] := by
    intro he
    subst he
    exact absurd hscheme (by decide)
  have henc_ne := encodeURIComponent_ne_nil hu_ne
  have hnoslash := encodeURIComponent_no_slash u
  have hshape : encodeProxyPath u = '/' :: (("proxy".data) ++ '/' :: encodeURIComponent u) := rfl
  have hsplit : splitOnChar '/' (encodeProxyPath u) =
      [[], ("proxy".data), encodeURIComponent u] := by
    rw [hshape, splitOnChar_cons_sep, splitOnChar_append (by decide),
      splitOnChar_no_sep hnoslash]
  have hmain : decodeProxyPath (encodeProxyPath u) = some u := by
    unfold decodeProxyPath
    rw [hsplit]
    rw [if_neg (by simp)]
    have hjoin : joinChar '/' (([[], ("proxy".data), encodeURIComponent u]).drop 2) =
        encodeURIComponent u := rfl
    rw [hjoin]
    unfold decodeTargetUrl
    rw [if_pos henc_ne]
    obtain ⟨w, hw⟩ := Option.isSome_iff_exists.1 hparse
    simp [decodeURIComponent_encode u, hscheme, hw]
  exact ⟨hmain, by rw [hmain]; rfl⟩

/-! ### C2: `rewriteAttributeValue` against the spec's `RewriteReference` -/

theorem toNat_ofNat_valid {n : Nat} (h : n.isValidChar) : (Char.ofNat n).toNat = n := by
  rw [Char.ofNat, dif_pos h]
  rfl

theorem charLe_iff {a b : Char} : a ≤ b ↔ a.toNat ≤ b.toNat := by
  rw [Char.le_def, UInt32.le_def, BitVec.le_def]
  rfl

/-- The (lowercased) scheme alphabet: lowercase letters, digits, `+`,
`-`, `.`. -/
def schemeCharOk (c : Char) : Bool :=
  ('a' ≤ c && c ≤ 'z') || isDigitCh c || c == '+' || c == '-' || c == '.'

/-- Well-formedness of a parsed URL: a nonempty lowercase scheme, and
an opaque path exactly when the scheme is not `http`/`https`.  Every
URL produced by the parser satisfies this. -/
def UrlModel.wf (u : UrlModel) : Bool :=
  !(u.scheme == []) && u.scheme.all schemeCharOk &&
  (match u.opq with
   | none => u.scheme == ("http".data) || u.scheme == ("https".data)
   | some _ => !(u.scheme == ("http".data) || u.scheme == ("https".data)))

theorem schemeCharOk_ne_colon {c : Char} (h : schemeCharOk c = true) : c ≠ ':' := by
  intro heq
  subst heq
  exact absurd h (by decide)

theorem schemeCharOk_no_colon {s : List Char} (h : s.all schemeCharOk = true) : ':' ∉ s := by
  intro hm
  exact schemeCharOk_ne_colon (List.all_eq_true.1 h _ hm) rfl

theorem colon_free_append_inj {x : List Char} {a : List Char} :
    ∀ {y b : List Char}, ':' ∉ x → ':' ∉ y →
      x ++ ':' :: a = y ++ ':' :: b → x = y ∧ a = b := by
  induction x with
  | nil =>
    intro y b hx hy h
    cases y with
    | nil => simpa using h
    | cons d y' =>
      rw [List.nil_append, List.cons_append] at h
      injection h with h1 h2
      exact absurd (by rw [h1]; exact List.mem_cons_self d y') hy
  | cons c x' ih =>
    intro y b hx hy h
    cases y with
    | nil =>
      rw [List.cons_append, List.nil_append] at h
      injection h with h1 h2
      exact absurd (by rw [← h1]; exact List.mem_cons_self c x') hx
    | cons d y' =>
      rw [List.cons_append, List.cons_append] at h
      injection h with h1 h2
      have hx' : ':' ∉ x' := fun m => hx (List.mem_cons_of_mem c m)
      have hy' : ':' ∉ y' := fun m => hy (List.mem_cons_of_mem d m)
      obtain ⟨e1, e2⟩ := ih hx' hy' h2
      exact ⟨by rw [h1, e1], e2⟩

theorem toLowerCh_eq_self {c : Char} (h : ¬('A' ≤ c ∧ c ≤ 'Z')) : toLowerCh c = c := by
  rw [toLowerCh, if_neg h]

theorem schemeCharOk_not_upper {c : Char} (h : schemeCharOk c = true) :
    ¬('A' ≤ c ∧ c ≤ 'Z') := by
  rintro ⟨h1, h2⟩
  simp only [schemeCharOk, isDigitCh, Bool.or_eq_true, Bool.and_eq_true,
    decide_eq_true_eq, beq_iff_eq] at h
  rcases h with (((⟨ha, _⟩ | ⟨_, hb⟩) | rfl) | rfl) | rfl
  · exact absurd (Char.le_trans ha h2) (by decide)
  · exact absurd (Char.le_trans h1 hb) (by decide)
  · exact absurd h1 (by decide)
  · exact absurd h1 (by decide)
  · exact absurd h1 (by decide)

theorem lowerL_fix_scheme {s : List Char} (h : s.all schemeCharOk = true) :
    lowerL s = s := by
  induction s with
  | nil => rfl
  | cons c t ih =>
    rw [List.all_cons, Bool.and_eq_true] at h
    show toLowerCh c :: lowerL t = c :: t
    rw [toLowerCh_eq_self (schemeCharOk_not_upper h.1), ih h.2]

theorem wf_scheme_ne {b : UrlModel} (hb : b.wf = true) : b.scheme ≠ [] := by
  unfold UrlModel.wf at hb
  simp only [Bool.and_eq_true, Bool.not_eq_true', beq_eq_false_iff_ne, ne_eq] at hb
  exact hb.1.1

theorem wf_scheme_ok {b : UrlModel} (hb : b.wf = true) :
    b.scheme.all schemeCharOk = true := by
  unfold UrlModel.wf at hb
  simp only [Bool.and_eq_true] at hb
  exact hb.1.2

theorem wf_opq_none_special {b : UrlModel} (hb : b.wf = true) (h : b.opq = none) :
    b.scheme = ("http".data) ∨ b.scheme = ("https".data) := by
  unfold UrlModel.wf at hb
  rw [h] at hb
  simp only [Bool.and_eq_true, Bool.or_eq_true, beq_iff_eq] at hb
  exact hb.2

theorem wf_opq_some_not_special {b : UrlModel} {o : List Char} (hb : b.wf = true)
    (h : b.opq = some o) :
    ¬(b.scheme = ("http".data) ∨ b.scheme = ("https".data)) := by
  unfold UrlModel.wf at hb
  rw [h] at hb
  simp only [Bool.and_eq_true, Bool.not_eq_true', Bool.or_eq_false_iff,
    beq_eq_false_iff_ne, ne_eq] at hb
  rintro (e | e)
  · exact hb.2.1 e
  · exact hb.2.2 e

theorem schemeCharOk_toLowerCh {c : Char} (h : isSchemeChar c = true) :
    schemeCharOk (toLowerCh c) = true := by
  by_cases hu : 'A' ≤ c ∧ c ≤ 'Z'
  · have h1 := charLe_iff.1 hu.1
    have h2 := charLe_iff.1 hu.2
    rw [show ('A').toNat = 65 from rfl] at h1
    rw [show ('Z').toNat = 90 from rfl] at h2
    have ht : (toLowerCh c).toNat = c.toNat + 32 := by
      rw [toLowerCh, if_pos hu]
      exact toNat_ofNat_valid (Or.inl (by omega))
    have hla : 'a' ≤ toLowerCh c :=
      charLe_iff.2 (by rw [ht, show ('a').toNat = 97 from rfl]; omega)
    have hlz : toLowerCh c ≤ 'z' :=
      charLe_iff.2 (by rw [ht, show ('z').toNat = 122 from rfl]; omega)
    simp [schemeCharOk, hla, hlz]
  · rw [toLowerCh_eq_self hu]
    simp only [isSchemeChar, isAsciiAlpha, isDigitCh, Bool.or_eq_true, Bool.and_eq_true,
      decide_eq_true_eq, beq_iff_eq] at h
    rcases h with ((((⟨ha, hb⟩ | ⟨hl1, hl2⟩) | ⟨hd1, hd2⟩) | rfl) | rfl) | rfl
    · exact absurd ⟨ha, hb⟩ hu
    · simp [schemeCharOk, hl1, hl2]
    · simp [schemeCharOk, isDigitCh, hd1, hd2]
    · decide
    · decide
    · decide

theorem parseSchemeSplit_ok {s sch rest : List Char}
    (h : parseSchemeSplit s = some (sch, rest)) :
    sch ≠ [] ∧ sch.all schemeCharOk = true := by
  cases s with
  | nil => exact absurd h (by simp [parseSchemeSplit])
  | cons c s' =>
    simp only [parseSchemeSplit] at h
    split at h
    · rename_i halpha
      split at h
      · rw [Option.some.injEq, Prod.mk.injEq] at h
        obtain ⟨h1, -⟩ := h
        subst h1
        have hsc : isSchemeChar c = true := by simp [isSchemeChar, halpha]
        have htw : (c :: s').takeWhile isSchemeChar = c :: s'.takeWhile isSchemeChar := by
          rw [List.takeWhile_cons, if_pos hsc]
        constructor
        · rw [htw]
          simp [lowerL]
        · rw [List.all_eq_true]
          intro x hx
          rw [lowerL, List.mem_map] at hx
          obtain ⟨y, hy, rfl⟩ := hx
          exact schemeCharOk_toLowerCh (List.mem_takeWhile_imp hy)
      · exact absurd h (by simp)
    · exact absurd h (by simp)

theorem parseAuthorityPath_wf {sch s : List Char} {u : UrlModel}
    (hsp : sch = ("http".data) ∨ sch = ("https".data))
    (h : parseAuthorityPath sch s = some u) : u.wf = true := by
  simp only [parseAuthorityPath] at h
  split at h
  · exact absurd h (by simp)
  · rw [Option.some.injEq] at h
    subst h
    rcases hsp with rfl | rfl <;> rfl

theorem pathAbsolute_wf {b : UrlModel} {afterSlash : List Char} {u : UrlModel}
    (hb : b.wf = true) (h : pathAbsolute b afterSlash = some u) : u.wf = true := by
  simp only [pathAbsolute, Option.some.injEq] at h
  subst h
  exact hb

theorem relativeResolve_wf {b : UrlModel} {s : List Char} {u : UrlModel}
    (hb : b.wf = true) (hopq : b.opq = none)
    (h : relativeResolve b s = some u) : u.wf = true := by
  have hsp := wf_opq_none_special hb hopq
  cases s with
  | nil =>
    simp only [relativeResolve, Option.some.injEq] at h
    subst h
    exact hb
  | cons c rest =>
    simp only [relativeResolve] at h
    split at h
    · split at h
      · split at h
        · exact parseAuthorityPath_wf hsp h
        · exact pathAbsolute_wf hb h
      · exact pathAbsolute_wf hb h
    · split at h
      · rw [Option.some.injEq] at h
        subst h
        exact hb
      · split at h
        · rw [Option.some.injEq] at h
          subst h
          exact hb
        · rw [Option.some.injEq] at h
          subst h
          exact hb

theorem parseOpaquePath_wf {sch rest : List Char} {u : UrlModel}
    (hne : sch ≠ []) (hok : sch.all schemeCharOk = true)
    (hnsp : ¬(sch = ("http".data) ∨ sch = ("https".data)))
    (h : parseOpaquePath sch rest = some u) : u.wf = true := by
  simp only [parseOpaquePath, Option.some.injEq] at h
  subst h
  push_neg at hnsp
  unfold UrlModel.wf
  rw [Bool.and_eq_true, Bool.and_eq_true]
  refine ⟨⟨?_, hok⟩, ?_⟩
  · rw [Bool.not_eq_true', beq_eq_false_iff_ne]
    exact hne
  · rw [Bool.not_eq_true', Bool.or_eq_false_iff, beq_eq_false_iff_ne, beq_eq_false_iff_ne]
    exact ⟨hnsp.1, hnsp.2⟩

theorem parseURLWith_wf {v : List Char} {b : UrlModel} {u : UrlModel}
    (hb : b.wf = true) (h : parseURLWith v (some b) = some u) : u.wf = true := by
  simp only [parseURLWith] at h
  split at h
  · rename_i sr heq
    obtain ⟨sch, rest⟩ := sr
    obtain ⟨hne, hok⟩ := parseSchemeSplit_ok heq
    split at h
    · rename_i hspec
      split at h
      · rename_i hcond
        have hopq : b.opq = none := by
          cases hbq : b.opq with
          | none => rfl
          | some o =>
            exact absurd (hcond.1 ▸ hspec) (wf_opq_some_not_special hb hbq)
        exact relativeResolve_wf hb hopq h
      · exact parseAuthorityPath_wf hspec h
    · rename_i hnspec
      exact parseOpaquePath_wf hne hok hnspec h
  · split at h
    · split at h
      · rw [Option.some.injEq] at h
        subst h
        exact hb
      · exact absurd h (by simp)
    · rename_i hbq
      exact relativeResolve_wf hb hbq h

theorem urlResolve_wf {v : List Char} {b u : UrlModel} (hb : b.wf = true)
    (h : urlResolve v b = some u) : u.wf = true :=
  parseURLWith_wf hb h

theorem startsWithHttpScheme_http_tail (t : List Char) :
    startsWithHttpScheme ('h' :: 't' :: 't' :: 'p' :: ':' :: '/' :: '/' :: t) = true := rfl

theorem startsWithHttpScheme_https_tail (t : List Char) :
    startsWithHttpScheme ('h' :: 't' :: 't' :: 'p' :: 's' :: ':' :: '/' :: '/' :: t) = true := rfl

/-- On parser-produced URLs, the regex test `/^https?:\/\//i` on the
serialization is exactly the test that the scheme is `http` or `https`. -/
theorem startsWithHttpScheme_serialize {u : UrlModel} (hwf : u.wf = true) :
    startsWithHttpScheme (serializeUrl u) = true ↔
      (u.scheme = ("http".data) ∨ u.scheme = ("https".data)) := by
  cases hopq : u.opq with
  | none =>
    have hsp := wf_opq_none_special hwf hopq
    constructor
    · intro _
      exact hsp
    · intro _
      rcases hsp with he | he
      · simp only [serializeUrl, hopq, he]
        exact startsWithHttpScheme_http_tail _
      · simp only [serializeUrl, hopq, he]
        exact startsWithHttpScheme_https_tail _
  | some o =>
    have hnsp := wf_opq_some_not_special hwf hopq
    constructor
    · intro hpre
      exfalso
      have hser : serializeUrl u = u.scheme ++ ':' ::
          (o ++ (match u.query with | some q => '?' :: q | none => []) ++
           (match u.fragment with | some f => '#' :: f | none => [])) := by
        simp [serializeUrl, hopq]
      have hlowser : lowerL (serializeUrl u) = u.scheme ++ ':' ::
          lowerL (o ++ (match u.query with | some q => '?' :: q | none => []) ++
            (match u.fragment with | some f => '#' :: f | none => [])) := by
        rw [hser]
        rw [show u.scheme ++ ':' ::
            (o ++ (match u.query with | some q => '?' :: q | none => []) ++
             (match u.fragment with | some f => '#' :: f | none => [])) =
            u.scheme ++ [':'] ++
            (o ++ (match u.query with | some q => '?' :: q | none => []) ++
             (match u.fragment with | some f => '#' :: f | none => [])) by simp]
        rw [lowerL_append, lowerL_append, lowerL_fix_scheme (wf_scheme_ok hwf)]
        rw [show lowerL [':'] = [':'] from rfl]
        simp [List.append_assoc]
      have hcolon := schemeCharOk_no_colon (wf_scheme_ok hwf)
      unfold startsWithHttpScheme at hpre
      rw [Bool.or_eq_true] at hpre
      rcases hpre with hp | hp
      · unfold hasPrefixCI at hp
        rw [hlowser] at hp
        rw [show lowerL ("http://".data) = ("http://".data) from rfl] at hp
        obtain ⟨r, hr⟩ := hasPrefixL_exists hp
        have hr' : u.scheme ++ ':' :: lowerL (o ++ _ ++ _) =
            ("http".data) ++ ':' :: ('/' :: '/' :: r) := hr
        obtain ⟨heq, -⟩ := colon_free_append_inj hcolon (by decide) hr'
        exact hnsp (Or.inl heq)
      · unfold hasPrefixCI at hp
        rw [hlowser] at hp
        rw [show lowerL ("https://".data) = ("https://".data) from rfl] at hp
        obtain ⟨r, hr⟩ := hasPrefixL_exists hp
        have hr' : u.scheme ++ ':' :: lowerL (o ++ _ ++ _) =
            ("https".data) ++ ':' :: ('/' :: '/' :: r) := hr
        obtain ⟨heq, -⟩ := colon_free_append_inj hcolon (by decide) hr'
        exact hnsp (Or.inr heq)
    · intro hsp
      exact absurd hsp hnsp

/-- C1 witness: the round-trip theorem applied at the concrete URL
`https://example.com/`. -/
theorem decode_encode_roundtrip_witness :
    startsWithHttpScheme ("https://example.com/".data) = true ∧
    (urlParse ("https://example.com/".data)).isSome = true ∧
    decodeProxyPath (encodeProxyPath ("https://example.com/".data)) =
      some ("https://example.com/".data) :=
  ⟨by decide, by decide,
    (decode_encode_roundtrip ("https://example.com/".data) (by decide) (by decide)).1⟩

/-- The spec's example target `https://example.com/a/`. -/
def targetEx : UrlModel := (urlParse ("https://example.com/a/".data)).getD default

/-- C2: `rewriteAttributeValue` resolves the raw value against the
target; when the resolved scheme is `http`/`https` it returns the
encoded proxy path of the resolved URL, otherwise (or when resolution
fails) the raw value unchanged.  The conjuncts check the three example
cases of the spec for target `https://example.com/a/`. -/
theorem rewriteAttributeValue_spec :
    (∀ (attrValue : List Char) (target : UrlModel), target.wf = true →
      rewriteAttributeValue attrValue target =
        match urlResolve attrValue target with
        | some url =>
          if url.scheme = ("http".data) ∨ url.scheme = ("https".data) then
            encodeProxyPath (serializeUrl url)
          else attrValue
        | none => attrValue) ∧
    rewriteAttributeValue ("/b/c".data) targetEx =
      encodeProxyPath ("https://example.com/b/c".data) ∧
    rewriteAttributeValue ("//cdn.example.com/x".data) targetEx =
      encodeProxyPath ("https://cdn.example.com/x".data) ∧
    rewriteAttributeValue ("mailto:a@b.com".data) targetEx = ("mailto:a@b.com".data) := by
  refine ⟨?_, by decide, by decide, by decide⟩
  intro attrValue target hwf
  cases hres : urlResolve attrValue target with
  | none => simp only [rewriteAttributeValue, hres]
  | some url =>
    have hwfu := urlResolve_wf hwf hres
    simp only [rewriteAttributeValue, hres]
    by_cases hsp : url.scheme = ("http".data) ∨ url.scheme = ("https".data)
    · rw [if_pos hsp, if_neg]
      · rfl
      · rw [(startsWithHttpScheme_serialize hwfu).2 hsp]
        simp
    · rw [if_neg hsp, if_pos]
      intro hcon
      exact hsp ((startsWithHttpScheme_serialize hwfu).1 hcon)

/-- C2 witness: the universal part applied at the example input
`/b/c` and the example target. -/
theorem rewriteAttributeValue_spec_witness :
    targetEx.wf = true ∧
    rewriteAttributeValue ("/b/c".data) targetEx =
      match urlResolve ("/b/c".data) targetEx with
      | some url =>
        if url.scheme = ("http".data) ∨ url.scheme = ("https".data) then
          encodeProxyPath (serializeUrl url)
        else ("/b/c".data)
      | none => ("/b/c".data) :=
  ⟨by decide, rewriteAttributeValue_spec.1 ("/b/c".data) targetEx (by decide)⟩

/-! ### Header-list lemmas -/

theorem nameMatches_self (n : List Char) : nameMatches n n = true := by
  simp [nameMatches]

theorem headersGetAll_append (n : List Char) (h1 h2 : HeadersL) :
    headersGetAll n (h1 ++ h2) = headersGetAll n h1 ++ headersGetAll n h2 := by
  simp [headersGetAll, List.filter_append]

theorem headersGetAll_delete_self (n : List Char) (h : HeadersL) :
    headersGetAll n (headersDelete n h) = [] := by
  unfold headersGetAll headersDelete
  rw [List.filter_filter]
  have : ∀ p : List Char × List Char,
      (nameMatches p.1 n && !nameMatches p.1 n) = false := by
    intro p
    cases nameMatches p.1 n <;> rfl
  rw [List.filter_congr (fun p _ => this p)]
  simp

theorem headersGetAll_delete_ne {n m : List Char} (hnm : lowerL n ≠ lowerL m)
    (h : HeadersL) : headersGetAll n (headersDelete m h) = headersGetAll n h := by
  unfold headersGetAll headersDelete
  rw [List.filter_filter]
  congr 1
  apply List.filter_congr
  intro p _
  cases hpn : nameMatches p.1 n
  · simp
  · have hm : nameMatches p.1 m = false := by
      unfold nameMatches at hpn ⊢
      rw [beq_iff_eq] at hpn
      rw [beq_eq_false_iff_ne, hpn]
      exact hnm
    simp [hm]

theorem headersGet_delete_ne {n m : List Char} (hnm : lowerL n ≠ lowerL m)
    (h : HeadersL) : headersGet n (headersDelete m h) = headersGet n h := by
  unfold headersGet
  rw [headersGetAll_delete_ne hnm]

theorem headersGetAll_single_ne {n m v : List Char} (hnm : lowerL n ≠ lowerL m) :
    headersGetAll n [(m, v)] = [] := by
  unfold headersGetAll
  have : nameMatches m n = false := by
    unfold nameMatches
    rw [beq_eq_false_iff_ne]
    exact fun e => hnm e.symm
  simp [this]

theorem headersGet_set_self (n v : List Char) (h : HeadersL) :
    headersGet n (headersSet n v h) = some v := by
  unfold headersGet headersSet
  rw [headersGetAll_append, headersGetAll_delete_self]
  simp [headersGetAll, nameMatches_self, joinCommaSpace]

theorem headersGetAll_appendCookies {n sc : List Char} (hnm : lowerL n ≠ lowerL sc)
    (cookies : List (List Char)) (init : HeadersL) :
    headersGetAll n (cookies.foldl (fun acc c => headersAppend sc c acc) init) =
      headersGetAll n init := by
  induction cookies generalizing init with
  | nil => rfl
  | cons c t ih =>
    rw [List.foldl_cons, ih]
    unfold headersAppend
    rw [headersGetAll_append, headersGetAll_single_ne hnm, List.append_nil]

/-- The `Location` value of the transformed headers: rewritten from the
upstream's `Location`. -/
theorem transformHeaders_location {response : JsResponse} {target : UrlModel}
    {proxyOrigin ℓ : List Char}
    (hloc : headersGet ("Location".data) response.headers = some ℓ) :
    headersGet ("Location".data) (transformResponseHeaders response target proxyOrigin) =
      some (rewriteLocation ℓ target proxyOrigin) := by
  have hhas : headersHas ("Location".data) response.headers = true := by
    unfold headersGet at hloc
    unfold headersHas
    rw [List.any_eq_true]
    cases hga : headersGetAll ("Location".data) response.headers with
    | nil => rw [hga] at hloc; exact absurd hloc (by simp)
    | cons p t =>
      have : p ∈ headersGetAll ("Location".data) response.headers := by
        rw [hga]; exact List.mem_cons_self p t
      unfold headersGetAll at this
      rw [List.mem_map] at this
      obtain ⟨q, hq, -⟩ := this
      exact ⟨q, (List.mem_filter.1 hq).1, (List.mem_filter.1 hq).2⟩
  simp only [transformResponseHeaders]
  rw [if_pos hhas]
  rw [headersGet_delete_ne (by decide), headersGet_delete_ne (by decide),
    headersGet_delete_ne (by decide), headersGet_set_self, hloc]
  rfl

/-- Reduction of `handleRequest` on the success path. -/
theorem handleRequest_success {fetchFn : OutRequest → Option JsResponse}
    {engine : RewriterEngine} {request : JsRequest} {tstr : List Char} {ures : JsResponse}
    (hseg : (splitOnChar '/' request.pathname)[1]? = some ("proxy".data))
    (hdec : decodeTargetUrl (joinChar '/' ((splitOnChar '/' request.pathname).drop 2)) =
      some tstr)
    (hfetch : fetchFn (buildOutboundRequest request ((urlParse tstr).getD default)) =
      some ures) :
    (handleRequest fetchFn engine request).status = ures.status ∧
    (handleRequest fetchFn engine request).headers =
      transformResponseHeaders ures ((urlParse tstr).getD default) request.origin ∧
    (handleRequest fetchFn engine request).body =
      (if containsStr ("text/html".data)
          ((headersGet ("Content-Type".data) ures.headers).getD []) then
        injectFakeEnvScript
          (rewriteInlineJS (applyHTMLRewriter engine ((urlParse tstr).getD default) ures.body)
            ((urlParse tstr).getD default) request.origin)
          ((urlParse tstr).getD default) request.origin
       else ures.body) := by
  unfold handleRequest
  simp only [hseg, hdec, hfetch, ne_eq, not_true_eq_false, if_false]
  by_cases hct : containsStr ("text/html".data)
      ((headersGet ("Content-Type".data) ures.headers).getD []) = true
  · simp only [hct, if_true]
    exact ⟨trivial, trivial, trivial⟩
  · rw [Bool.not_eq_true] at hct
    simp only [hct, Bool.false_eq_true, if_false]
    exact ⟨trivial, trivial, trivial⟩

/-! ### C3, C5, C9, C10: handler-level properties -/

/-- C3: upstream redirects are never followed automatically — the
outbound request is built with `redirect: manual`; `rewriteLocation`
resolves the `Location` value against the target and produces
`<proxyOrigin>/proxy/<percent-encoded absolute URL>` on the proxy's own
origin, passing the original value through unchanged when resolution
fails; and the response returned by the handler carries exactly that
rewritten `Location` header whenever the upstream response has one. -/
theorem redirect_location_spec :
    (∀ (request : JsRequest) (target : UrlModel),
      (buildOutboundRequest request target).redirect = RedirectMode.manual) ∧
    (∀ (location : List Char) (target : UrlModel) (proxyOrigin : List Char),
      rewriteLocation location target proxyOrigin =
        match urlResolve location target with
        | some abs =>
          proxyOrigin ++ ("/proxy/".data) ++ encodeURIComponent (serializeUrl abs)
        | none => location) ∧
    (∀ (fetchFn : OutRequest → Option JsResponse) (engine : RewriterEngine)
        (request : JsRequest) (tstr ℓ : List Char) (ures : JsResponse),
      (splitOnChar '/' request.pathname)[1]? = some ("proxy".data) →
      decodeTargetUrl (joinChar '/' ((splitOnChar '/' request.pathname).drop 2)) =
        some tstr →
      fetchFn (buildOutboundRequest request ((urlParse tstr).getD default)) = some ures →
      headersGet ("Location".data) ures.headers = some ℓ →
      headersGet ("Location".data) (handleRequest fetchFn engine request).headers =
        some (rewriteLocation ℓ ((urlParse tstr).getD default) request.origin)) := by
  refine ⟨fun _ _ => rfl, fun _ _ _ => rfl, ?_⟩
  intro fetchFn engine request tstr ℓ ures hseg hdec hfetch hloc
  rw [(handleRequest_success hseg hdec hfetch).2.1]
  exact transformHeaders_location hloc

/-- A concrete upstream response with a `Location` header. -/
def ures0 : JsResponse :=
  ⟨302, [(("Location".data), ("/next".data)), (("Content-Type".data), ("text/plain".data))],
   []⟩

/-- A concrete inbound proxy request for `https://example.com/a/`. -/
def request0 : JsRequest :=
  ⟨("/proxy/https%3A%2F%2Fexample.com%2Fa%2F".data), ("https://proxy.local".data),
   ("GET".data), [], none⟩

/-- A trivial HTMLRewriter engine (identity traversal). -/
def engine0 : RewriterEngine := fun _ b => b

/-- C3 witness: the `Location` theorem applied at a concrete redirect
response. -/
theorem redirect_location_spec_witness :
    (buildOutboundRequest request0 targetEx).redirect = RedirectMode.manual ∧
    headersGet ("Location".data)
        (handleRequest (fun _ => some ures0) engine0 request0).headers =
      some (rewriteLocation ("/next".data)
        ((urlParse ("https://example.com/a/".data)).getD default) request0.origin) :=
  ⟨redirect_location_spec.1 request0 targetEx,
   redirect_location_spec.2.2 (fun _ => some ures0) engine0 request0
     ("https://example.com/a/".data) ("/next".data) ures0
     (by decide) (by decide) rfl (by decide)⟩

/-- C5: a response whose `Content-Type` does not contain `text/html`
passes through with its body byte-for-byte unchanged and status
preserved, while the header transformations are still applied. -/
theorem non_html_passthrough {fetchFn : OutRequest → Option JsResponse}
    {engine : RewriterEngine} {request : JsRequest} {tstr : List Char} {ures : JsResponse}
    (hseg : (splitOnChar '/' request.pathname)[1]? = some ("proxy".data))
    (hdec : decodeTargetUrl (joinChar '/' ((splitOnChar '/' request.pathname).drop 2)) =
      some tstr)
    (hfetch : fetchFn (buildOutboundRequest request ((urlParse tstr).getD default)) =
      some ures)
    (hct : containsStr ("text/html".data)
      ((headersGet ("Content-Type".data) ures.headers).getD []) = false) :
    handleRequest fetchFn engine request =
      { status := ures.status,
        headers := transformResponseHeaders ures ((urlParse tstr).getD default)
          request.origin,
        body := ures.body } := by
  obtain ⟨h1, h2, h3⟩ := handleRequest_success hseg hdec hfetch
  rw [hct] at h3
  simp only [Bool.false_eq_true, if_false] at h3
  rcases hh : handleRequest fetchFn engine request with ⟨st, hd, bd⟩
  rw [hh] at h1 h2 h3
  simp only at h1 h2 h3
  rw [h1, h2, h3]

/-- A concrete non-HTML upstream response. -/
def uresJson : JsResponse :=
  ⟨207,
   [(("Content-Type".data), ("application/json".data)),
    (("Set-Cookie".data), ("a=b; Domain=x.com".data)),
    (("X-Frame-Options".data), ("DENY".data))],
   ("\x7b\"k\":1\x7d".data)⟩

/-- C5 witness: the pass-through theorem applied to a JSON response. -/
theorem non_html_passthrough_witness :
    containsStr ("text/html".data)
      ((headersGet ("Content-Type".data) uresJson.headers).getD []) = false ∧
    handleRequest (fun _ => some uresJson) engine0 request0 =
      { status := uresJson.status,
        headers := transformResponseHeaders uresJson
          ((urlParse ("https://example.com/a/".data)).getD default) request0.origin,
        body := uresJson.body } :=
  ⟨by decide,
   @non_html_passthrough (fun _ => some uresJson) engine0 request0
     ("https://example.com/a/".data) uresJson (by decide) (by decide) rfl (by decide)⟩

/-- C10: the status of the response returned to the client equals the
upstream status, on both the HTML-rewriting path and the pass-through
path (no content-type assumption). -/
theorem status_preserved {fetchFn : OutRequest → Option JsResponse}
    {engine : RewriterEngine} {request : JsRequest} {tstr : List Char} {ures : JsResponse}
    (hseg : (splitOnChar '/' request.pathname)[1]? = some ("proxy".data))
    (hdec : decodeTargetUrl (joinChar '/' ((splitOnChar '/' request.pathname).drop 2)) =
      some tstr)
    (hfetch : fetchFn (buildOutboundRequest request ((urlParse tstr).getD default)) =
      some ures) :
    (handleRequest fetchFn engine request).status = ures.status :=
  (handleRequest_success hseg hdec hfetch).1

/-- A concrete HTML upstream response. -/
def uresHtml : JsResponse :=
  ⟨203,
   [(("Content-Type".data), ("text/html; charset=utf-8".data))],
   ("<html><head></head><body>x</body></html>".data)⟩

/-- C10 witness: status preservation applied on the HTML path and on
the pass-through path. -/
theorem status_preserved_witness :
    (handleRequest (fun _ => some uresHtml) engine0 request0).status = 203 ∧
    (handleRequest (fun _ => some uresJson) engine0 request0).status = 207 :=
  ⟨@status_preserved (fun _ => some uresHtml) engine0 request0
     ("https://example.com/a/".data) uresHtml (by decide) (by decide) rfl,
   @status_preserved (fun _ => some uresJson) engine0 request0
     ("https://example.com/a/".data) uresJson (by decide) (by decide) rfl⟩

/-- C9: the handler's error mapping.  A request whose first path
segment is not `proxy` yields 501 with the fixed message, for every
fetcher (the fetcher is never invoked); a decoded embedded target that
fails URL validation yields 400 with body `Invalid URL`; a thrown
outbound fetch (the always-failing fetcher) yields 500 with the fixed
message. -/
theorem error_mapping :
    (∀ (fetchFn : OutRequest → Option JsResponse) (engine : RewriterEngine)
        (request : JsRequest),
      (splitOnChar '/' request.pathname)[1]? ≠ some ("proxy".data) →
      handleRequest fetchFn engine request =
        { status := 501, headers := [],
          body := ("非法访问，路径格式应为 /proxy/<encoded-url>".data) }) ∧
    (∀ (fetchFn : OutRequest → Option JsResponse) (engine : RewriterEngine)
        (request : JsRequest) (t0 : List Char),
      (splitOnChar '/' request.pathname)[1]? = some ("proxy".data) →
      joinChar '/' ((splitOnChar '/' request.pathname).drop 2) ≠ [] →
      decodeURIComponent (joinChar '/' ((splitOnChar '/' request.pathname).drop 2)) =
        some t0 →
      urlParse (if startsWithHttpScheme t0 then t0 else ("https://".data) ++ t0) = none →
      handleRequest fetchFn engine request =
        { status := 400, headers := [], body := ("Invalid URL".data) }) ∧
    (∀ (engine : RewriterEngine) (request : JsRequest) (tstr : List Char),
      (splitOnChar '/' request.pathname)[1]? = some ("proxy".data) →
      decodeTargetUrl (joinChar '/' ((splitOnChar '/' request.pathname).drop 2)) =
        some tstr →
      handleRequest (fun _ => none) engine request =
        { status := 500, headers := [],
          body := ("Error fetching the target site.".data) }) := by
  refine ⟨?_, ?_, ?_⟩
  · intro fetchFn engine request hne
    unfold handleRequest
    rw [if_pos hne]
  · intro fetchFn engine request t0 hseg hne hdecu hparse
    have hdec : decodeTargetUrl (joinChar '/' ((splitOnChar '/' request.pathname).drop 2)) =
        none := by
      unfold decodeTargetUrl
      rw [if_pos hne]
      simp only [hdecu, hparse]
    unfold handleRequest
    simp only [hseg, ne_eq, not_true_eq_false, if_false, hdec]
  · intro engine request tstr hseg hdec
    unfold handleRequest
    simp only [hseg, ne_eq, not_true_eq_false, if_false, hdec]

/-- C9 witness: the error mapping applied at three concrete requests:
`/other/thing` (501), `/proxy/http%3A%2F%2F` whose decoded target
`http://` fails to parse (400), and a valid proxy request with a
throwing fetch (500). -/
theorem error_mapping_witness :
    handleRequest (fun _ => some ures0) engine0
        ⟨("/other/thing".data), ("https://proxy.local".data), ("GET".data), [], none⟩ =
      { status := 501, headers := [],
        body := ("非法访问，路径格式应为 /proxy/<encoded-url>".data) } ∧
    handleRequest (fun _ => some ures0) engine0
        ⟨("/proxy/http%3A%2F%2F".data), ("https://proxy.local".data), ("GET".data), [],
         none⟩ =
      { status := 400, headers := [], body := ("Invalid URL".data) } ∧
    handleRequest (fun _ => none) engine0 request0 =
      { status := 500, headers := [],
        body := ("Error fetching the target site.".data) } :=
  ⟨error_mapping.1 (fun _ => some ures0) engine0 _ (by decide),
   error_mapping.2.1 (fun _ => some ures0) engine0 _ ("http://".data)
     (by decide) (by decide) (by decide) (by decide),
   error_mapping.2.2 engine0 request0 ("https://example.com/a/".data)
     (by decide) (by decide)⟩

/-! ### C7: the meta-refresh handler -/

/-- C7: for every meta refresh element whose `content` splits on `;`
into exactly two parts with the second, trimmed, starting
case-insensitively with `url=`, the attribute is reconstructed as
`<delay>; url=<rewritten remainder>`; content of any other shape, an
empty value, or a missing attribute is left untouched; finally the
spec's example `5;url=https://example.com/x`. -/
theorem metaRefresh_spec :
    (∀ (target : UrlModel) (el : ElementM) (c p0 p1 : List Char),
      getAttributeM el ("content".data) = some c → c ≠ [] →
      splitOnChar ';' c = [p0, p1] →
      hasPrefixCI ("url=".data) (trimJs p1) = true →
      metaRefreshHandler target el =
        setAttributeM el ("content".data)
          (p0 ++ ("; url=".data) ++ rewriteAttributeValue ((trimJs p1).drop 4) target)) ∧
    (∀ (target : UrlModel) (el : ElementM) (c : List Char),
      getAttributeM el ("content".data) = some c →
      ((splitOnChar ';' c).length ≠ 2 ∨
        (∀ p0 p1, splitOnChar ';' c = [p0, p1] →
          hasPrefixCI ("url=".data) (trimJs p1) = false)) →
      metaRefreshHandler target el = el) ∧
    (∀ (target : UrlModel) (el : ElementM),
      getAttributeM el ("content".data) = none → metaRefreshHandler target el = el) ∧
    metaRefreshHandler targetEx
        ⟨[(("content".data), ("5;url=https://example.com/x".data))]⟩ =
      ⟨[(("content".data), ("5; url=/proxy/https%3A%2F%2Fexample.com%2Fx".data))]⟩ := by
  refine ⟨?_, ?_, ?_, by decide⟩
  · intro target el c p0 p1 hget hne hsplit hpre
    simp only [metaRefreshHandler, hget]
    rw [if_neg hne]
    simp only [hsplit]
    rw [if_pos hpre]
  · intro target el c hget hshape
    simp only [metaRefreshHandler, hget]
    by_cases hce : c = []
    · rw [if_pos hce]
    · rw [if_neg hce]
      match hsp : splitOnChar ';' c with
      | [] => simp only [hsp]
      | [x] => simp only [hsp]
      | [x, y] =>
        simp only [hsp]
        rcases hshape with hlen | hpre
        · rw [hsp] at hlen
          exact absurd rfl hlen
        · rw [if_neg]
          rw [hpre x y hsp]
          simp
      | x :: y :: z :: t => simp only [hsp]
  · intro target el hget
    simp only [metaRefreshHandler, hget]

/-- The example meta element of the spec. -/
def elMeta : ElementM := ⟨[(("content".data), ("5;url=https://example.com/x".data))]⟩

/-- C7 witness: the reconstruction theorem applied at the spec's
example element. -/
theorem metaRefresh_spec_witness :
    getAttributeM elMeta ("content".data) = some ("5;url=https://example.com/x".data) ∧
    metaRefreshHandler targetEx elMeta =
      setAttributeM elMeta ("content".data)
        (("5".data) ++ ("; url=".data) ++
          rewriteAttributeValue ((trimJs ("url=https://example.com/x".data)).drop 4)
            targetEx) :=
  ⟨by decide,
   metaRefresh_spec.1 targetEx elMeta ("5;url=https://example.com/x".data)
     ("5".data) ("url=https://example.com/x".data)
     (by decide) (by decide) (by decide) (by decide)⟩

/-! ### C6: the inline-script patcher doubles the closing quote

The absolute and relative patterns (e.g.
`/(window\.location\s*=\s*)(['"])(https?:\/\/[^'"]+)/gi`) match up to
but *excluding* the closing quote of the string literal, while the
replacement `prefix + quote + newUrl + quote` appends a closing quote;
the original closing quote therefore survives right after the inserted
one, producing `...%2Fx""` — invalid JavaScript — instead of the
claimed `window.location = "<proxyOrigin>/proxy/<encoded>"`. -/

/-- C6 evidence: evaluating `rewriteInlineJS` at the spec's own example
inputs shows the doubled closing quote on both the absolute and the
relative pattern. -/
theorem rewriteInlineJS_doubles_quote :
    rewriteInlineJS ("window.location = \"https://example.com/x\"".data)
        ((urlParse ("https://example.com/".data)).getD default)
        ("https://proxy.local".data) =
      ("window.location = \"https://proxy.local/proxy/https%3A%2F%2Fexample.com%2Fx\"\"".data) ∧
    ("window.location = \"https://proxy.local/proxy/https%3A%2F%2Fexample.com%2Fx\"\"".data) ≠
      ("window.location = \"https://proxy.local/proxy/https%3A%2F%2Fexample.com%2Fx\"".data) ∧
    rewriteInlineJS ("window.location = \"/y\"".data)
        ((urlParse ("https://example.com/".data)).getD default)
        ("https://proxy.local".data) =
      ("window.location = \"https://proxy.local/proxy/https%3A%2F%2Fexample.com%2Fy\"\"".data) := by
  exact ⟨by decide, by decide, by decide⟩

/-! ### C8: the prepend fallback of the script injector is dead code

`html.replace(/<\/head>/i, script + '</head>') || (script + html)`
returns the *original* string when there is no match — a nonempty
string is truthy, so the `||` fallback is taken only for the empty
document.  A nonempty document without `</head>` is returned with no
script injected at all, contradicting the claimed prepend fallback. -/

theorem replaceFirstCI_no_match {pat repl s : List Char}
    (h : containsCI pat s = false) :
    replaceFirstCI pat repl s = s := by
  induction s with
  | nil => rfl
  | cons c rest ih =>
    have h2 : (hasPrefixL (lowerL pat) (toLowerCh c :: lowerL rest) ||
        containsStr (lowerL pat) (lowerL rest)) = false := h
    rcases Bool.or_eq_false_iff.1 h2 with ⟨ha, hb⟩
    have h1 : hasPrefixCI pat (c :: rest) = false := ha
    simp only [replaceFirstCI, h1, Bool.false_eq_true, if_false]
    rw [ih hb]

theorem fakeEnvScript_ne_nil (a b c d : List Char) : fakeEnvScript a b c d ≠ [] := by
  unfold fakeEnvScript
  simp only [List.append_assoc]
  intro h
  rw [List.cons_append] at h
  exact List.cons_ne_nil _ _ h

/-- C8: the prepend fallback of the script injector is dead code for any
nonempty document.  Every nonempty document without a closing head tag
(case-insensitively) is returned with no script injected at all — in
particular the result is not the claimed `script ++ html` — because
`String.prototype.replace` returns the original, truthy string when the
pattern does not match, so the `|| (script + html)` branch of line 300 is
taken only for the empty document (third conjunct). -/
theorem injectFakeEnvScript_no_head_unchanged (html : List Char) (target : UrlModel)
    (proxyOrigin : List Char) (hne : html ≠ [])
    (hno : containsCI ("</head>".data) html = false) :
    injectFakeEnvScript html target proxyOrigin = html ∧
    injectFakeEnvScript html target proxyOrigin ≠
      fakeEnvScript (urlHostProp target) (urlOriginProp target)
        (urlProtocolProp target) proxyOrigin ++ html ∧
    injectFakeEnvScript [] target proxyOrigin =
      fakeEnvScript (urlHostProp target) (urlOriginProp target)
        (urlProtocolProp target) proxyOrigin ++ [] := by
  have hrep : replaceFirstCI ("</head>".data)
      (fakeEnvScript (urlHostProp target) (urlOriginProp target)
        (urlProtocolProp target) proxyOrigin ++ ("</head>".data)) html = html :=
    replaceFirstCI_no_match hno
  have hmain : injectFakeEnvScript html target proxyOrigin = html := by
    simp only [injectFakeEnvScript]
    rw [hrep, if_neg hne]
  refine ⟨hmain, ?_, ?_⟩
  · rw [hmain]
    intro heq
    have hlen := congrArg List.length heq
    rw [List.length_append] at hlen
    have hpos : 0 < (fakeEnvScript (urlHostProp target) (urlOriginProp target)
        (urlProtocolProp target) proxyOrigin).length :=
      List.length_pos.2 (fakeEnvScript_ne_nil _ _ _ _)
    omega
  · rfl

/-- Witness for the C8 theorem at a concrete nonempty document with no
closing head tag. -/
theorem injectFakeEnvScript_no_head_unchanged_witness :
    injectFakeEnvScript ("<body>hello</body>".data)
        ((urlParse ("https://example.com/".data)).getD default)
        ("https://proxy.local".data) =
      ("<body>hello</body>".data) ∧
    injectFakeEnvScript ("<body>hello</body>".data)
        ((urlParse ("https://example.com/".data)).getD default)
        ("https://proxy.local".data) ≠
      fakeEnvScript
        (urlHostProp ((urlParse ("https://example.com/".data)).getD default))
        (urlOriginProp ((urlParse ("https://example.com/".data)).getD default))
        (urlProtocolProp ((urlParse ("https://example.com/".data)).getD default))
        ("https://proxy.local".data) ++ ("<body>hello</body>".data) ∧
    injectFakeEnvScript []
        ((urlParse ("https://example.com/".data)).getD default)
        ("https://proxy.local".data) =
      fakeEnvScript
        (urlHostProp ((urlParse ("https://example.com/".data)).getD default))
        (urlOriginProp ((urlParse ("https://example.com/".data)).getD default))
        (urlProtocolProp ((urlParse ("https://example.com/".data)).getD default))
        ("https://proxy.local".data) ++ [] :=
  injectFakeEnvScript_no_head_unchanged ("<body>hello</body>".data)
    ((urlParse ("https://example.com/".data)).getD default)
    ("https://proxy.local".data) (by decide) (by decide)

/-! ### C4: `rewriteSetCookie` -/

theorem charEq_iff {a b : Char} : a = b ↔ a.toNat = b.toNat := by
  constructor
  · intro h
    rw [h]
  · intro h
    apply Char.ext
    apply UInt32.ext
    exact h

theorem dropWhile_append_all {p : Char → Bool} {a : List Char}
    (h : ∀ x ∈ a, p x = true) (b : List Char) :
    List.dropWhile p (a ++ b) = List.dropWhile p b := by
  induction a with
  | nil => rfl
  | cons c t ih =>
    rw [List.cons_append, List.dropWhile_cons,
      if_pos (h c (List.mem_cons_self c t))]
    exact ih (fun x hx => h x (List.mem_cons_of_mem c hx))

theorem takeWhile_append_all {p : Char → Bool} {a : List Char}
    (h : ∀ x ∈ a, p x = true) (b : List Char) :
    List.takeWhile p (a ++ b) = a ++ List.takeWhile p b := by
  induction a with
  | nil => rfl
  | cons c t ih =>
    rw [List.cons_append, List.takeWhile_cons,
      if_pos (h c (List.mem_cons_self c t)), ih (fun x hx => h x (List.mem_cons_of_mem c hx)),
      List.cons_append]

theorem dropWhile_append_ne_nil {p : Char → Bool} {a : List Char}
    (h : List.dropWhile p a ≠ []) (b : List Char) :
    List.dropWhile p (a ++ b) = List.dropWhile p a ++ b := by
  induction a with
  | nil => exact absurd rfl h
  | cons c t ih =>
    rw [List.cons_append, List.dropWhile_cons, List.dropWhile_cons]
    by_cases hp : p c = true
    · rw [if_pos hp, if_pos hp]
      rw [List.dropWhile_cons, if_pos hp] at h
      exact ih h
    · rw [if_neg hp, if_neg hp, List.cons_append]

theorem dropWhile_ne_nil_of_getLast {p : Char → Bool} {a : List Char} {c : Char}
    (hl : a.getLast? = some c) (hc : p c = false) :
    List.dropWhile p a ≠ [] := by
  intro hnil
  rw [List.dropWhile_eq_nil_iff] at hnil
  have hmem : c ∈ a.getLast? := by rw [hl]; rfl
  obtain ⟨hne, heq⟩ := List.mem_getLast?_eq_getLast hmem
  have hmema : c ∈ a := heq ▸ List.getLast_mem hne
  rw [hnil c hmema] at hc
  exact absurd hc (by simp)

theorem matchDomainAt_cons_sep (t : List Char) :
    matchDomainAt (';' :: t) = matchDomainTail t := rfl

theorem matchDomainAt_cons_ne {c : Char} (hc : c ≠ ';') (rest : List Char) :
    matchDomainAt (c :: rest) = matchDomainTail (c :: rest) := by
  unfold matchDomainAt
  congr 1
  split
  · rename_i t heq
    injection heq with h1 _
    exact absurd h1 hc
  · rfl

theorem replaceDomainOnce_match {s after : List Char} (hne : s ≠ [])
    (h : matchDomainAt s = some after) : replaceDomainOnce s = after := by
  cases s with
  | nil => exact absurd rfl hne
  | cons c rest =>
    conv_lhs => rw [replaceDomainOnce]
    rw [h]

theorem replaceDomainOnce_step {c : Char} {rest : List Char}
    (h : matchDomainAt (c :: rest) = none) :
    replaceDomainOnce (c :: rest) = c :: replaceDomainOnce rest := by
  conv_lhs => rw [replaceDomainOnce]
  rw [h]

theorem toLowerCh_eq_d {d0 : Char} (h : toLowerCh d0 = 'd') : d0 = 'd' ∨ d0 = 'D' := by
  unfold toLowerCh at h
  split at h
  · rename_i hu
    right
    have h1 := charLe_iff.1 hu.1
    have h2 := charLe_iff.1 hu.2
    rw [show ('A').toNat = 65 from rfl] at h1
    rw [show ('Z').toNat = 90 from rfl] at h2
    have := congrArg Char.toNat h
    rw [toNat_ofNat_valid (Or.inl (by omega))] at this
    rw [charEq_iff]
    rw [show ('d').toNat = 100 from rfl] at this
    rw [show ('D').toNat = 68 from rfl]
    omega
  · exact Or.inl h

/-- Shape of the `Domain=` literal: a nonempty list starting with `d`
or `D`. -/
theorem dlit_shape {dlit : List Char} (h : lowerL dlit = ("domain=".data)) :
    ∃ d0 dt, dlit = d0 :: dt ∧ (d0 = 'd' ∨ d0 = 'D') ∧ dlit.length = 7 := by
  cases dlit with
  | nil => exact absurd h (by decide)
  | cons d0 dt =>
    have hc : toLowerCh d0 :: lowerL dt = 'd' :: ("omain=".data) := h
    injection hc with h1 _
    refine ⟨d0, dt, rfl, toLowerCh_eq_d h1, ?_⟩
    have := congrArg List.length h
    simpa [lowerL] using this

/-- The Domain matcher succeeds at the attribute itself, consuming the
whitespace, the `Domain=` literal and the value, and returning the
suffix. -/
theorem matchDomainTail_attr {sp dlit v suf : List Char}
    (hsp : ∀ x ∈ sp, isJsSpace x = true)
    (hdlit : lowerL dlit = ("domain=".data))
    (hv : v ≠ []) (hvs : ∀ x ∈ v, (x != ';') = true)
    (hsuf : List.takeWhile (fun c => c != ';') suf = []) :
    matchDomainTail (sp ++ (dlit ++ (v ++ suf))) = some suf := by
  obtain ⟨d0, dt, hdsh, hd0, hdlen⟩ := dlit_shape hdlit
  have hd0s : isJsSpace d0 = false := by
    rcases hd0 with rfl | rfl <;> decide
  have hl2 : List.dropWhile isJsSpace (sp ++ (dlit ++ (v ++ suf))) = dlit ++ (v ++ suf) := by
    rw [dropWhile_append_all hsp]
    rw [hdsh, List.cons_append, List.dropWhile_cons, if_neg (by rw [hd0s]; simp)]
  have hpre : hasPrefixCI ("domain=".data) (dlit ++ (v ++ suf)) = true := by
    unfold hasPrefixCI
    rw [lowerL_append, hdlit]
    rw [show lowerL ("domain=".data) = ("domain=".data) from rfl]
    exact hasPrefixL_append _ _
  have hdrop : (dlit ++ (v ++ suf)).drop 7 = v ++ suf := by
    rw [← hdlen]
    exact List.drop_left dlit (v ++ suf)
  have htake : List.takeWhile (fun c => c != ';') (v ++ suf) = v := by
    rw [takeWhile_append_all hvs, hsuf, List.append_nil]
  simp only [matchDomainTail, hl2, hpre, if_true, hdrop, htake]
  rw [if_neg hv]
  rw [List.drop_left v suf]

/-- The Domain matcher at the full attribute (with its optional leading
semicolon). -/
theorem matchDomainAt_attr {sep sp dlit v suf : List Char}
    (hsep : sep = [] ∨ sep = [';'])
    (hsp : ∀ x ∈ sp, isJsSpace x = true)
    (hdlit : lowerL dlit = ("domain=".data))
    (hv : v ≠ []) (hvs : ∀ x ∈ v, (x != ';') = true)
    (hsuf : List.takeWhile (fun c => c != ';') suf = []) :
    matchDomainAt (sep ++ (sp ++ (dlit ++ (v ++ suf)))) = some suf := by
  rcases hsep with rfl | rfl
  · rw [List.nil_append]
    cases sp with
    | nil =>
      rw [List.nil_append]
      obtain ⟨d0, dt, hdsh, hd0, -⟩ := dlit_shape hdlit
      have hd0ne : d0 ≠ ';' := by
        rcases hd0 with rfl | rfl <;> decide
      have h0 : matchDomainTail ([] ++ (dlit ++ (v ++ suf))) = some suf :=
        matchDomainTail_attr hsp hdlit hv hvs hsuf
      rw [List.nil_append] at h0
      rw [hdsh, List.cons_append, matchDomainAt_cons_ne hd0ne, ← List.cons_append, ← hdsh]
      exact h0
    | cons c sp' =>
      have hcs : isJsSpace c = true := hsp c (List.mem_cons_self c sp')
      have hcne : c ≠ ';' := by
        intro he
        rw [he] at hcs
        exact absurd hcs (by decide)
      rw [List.cons_append, matchDomainAt_cons_ne hcne, ← List.cons_append]
      exact matchDomainTail_attr hsp hdlit hv hvs hsuf
  · rw [show ([';'] ++ (sp ++ (dlit ++ (v ++ suf)))) =
      ';' :: (sp ++ (dlit ++ (v ++ suf))) from rfl]
    rw [matchDomainAt_cons_sep]
    exact matchDomainTail_attr hsp hdlit hv hvs hsuf

/-- `hasPrefixL` agrees with `List.IsPrefix`. -/
theorem hasPrefixL_iff_pre {p s : List Char} : hasPrefixL p s = true ↔ p <+: s := by
  constructor
  · intro h
    obtain ⟨r, rfl⟩ := hasPrefixL_exists h
    exact ⟨r, rfl⟩
  · rintro ⟨r, rfl⟩
    exact hasPrefixL_append p r

/-- `containsStr` is the existence of a decomposition with the pattern a
prefix of the second part. -/
theorem containsStr_iff {pat s : List Char} :
    containsStr pat s = true ↔ ∃ a b, s = a ++ b ∧ pat <+: b := by
  induction s with
  | nil =>
    constructor
    · intro h
      exact ⟨[], [], rfl, hasPrefixL_iff_pre.1 h⟩
    · rintro ⟨a, b, hab, hp⟩
      obtain ⟨rfl, rfl⟩ := List.append_eq_nil.1 hab.symm
      exact hasPrefixL_iff_pre.2 hp
  | cons c t ih =>
    constructor
    · intro h
      simp only [containsStr, Bool.or_eq_true] at h
      rcases h with h | h
      · exact ⟨[], c :: t, rfl, hasPrefixL_iff_pre.1 h⟩
      · obtain ⟨a, b, hab, hp⟩ := ih.1 h
        exact ⟨c :: a, b, by rw [hab, List.cons_append], hp⟩
    · rintro ⟨a, b, hab, hp⟩
      cases a with
      | nil =>
        rw [List.nil_append] at hab
        subst hab
        simp only [containsStr, Bool.or_eq_true]
        exact Or.inl (hasPrefixL_iff_pre.2 hp)
      | cons a0 a2 =>
        rw [List.cons_append] at hab
        injection hab with h1 h2
        simp only [containsStr, Bool.or_eq_true]
        exact Or.inr (ih.2 ⟨a2, b, h2, hp⟩)

/-- The Domain matcher fails when the case-insensitive prefix test fails
after the whitespace. -/
theorem matchDomainTail_none {l : List Char}
    (h : hasPrefixCI ("domain=".data) (List.dropWhile isJsSpace l) = false) :
    matchDomainTail l = none := by
  simp only [matchDomainTail, h, Bool.false_eq_true, if_false]

/-- At a nonempty suffix of the prefix part of the cookie, the tail
matcher fails: the normalized position is still inside the prefix, where
no case-insensitive `domain=` occurrence exists. -/
theorem matchDomainTail_none_inside {pre tail q : List Char}
    (hq : q ≠ []) (hqs : q <:+ pre)
    (hlastp : ∀ c, pre.getLast? = some c → isJsSpace c = false ∧ c ≠ ';')
    (hnodup : ∀ i, i < pre.length →
      hasPrefixCI ("domain=".data) (List.drop i (pre ++ tail)) = false) :
    matchDomainTail (q ++ tail) = none := by
  obtain ⟨p0, hp0⟩ := hqs
  have hlc := hlastp (q.getLast hq) (by
    rw [← hp0, List.getLast?_append_of_ne_nil _ hq]
    exact List.getLast?_eq_getLast_of_ne_nil hq)
  have hdw : List.dropWhile isJsSpace q ≠ [] :=
    dropWhile_ne_nil_of_getLast (List.getLast?_eq_getLast_of_ne_nil hq) hlc.1
  have hsplit : List.dropWhile isJsSpace (q ++ tail) = List.dropWhile isJsSpace q ++ tail :=
    dropWhile_append_ne_nil hdw tail
  have hsfx : List.dropWhile isJsSpace q <:+ q := List.dropWhile_suffix isJsSpace
  obtain ⟨p1, hp1⟩ := hsfx
  have hpre : pre = (p0 ++ p1) ++ List.dropWhile isJsSpace q := by
    rw [List.append_assoc, hp1, hp0]
  have hilt : (p0 ++ p1).length < pre.length := by
    rw [hpre]
    simp only [List.length_append]
    have hpos : 0 < (List.dropWhile isJsSpace q).length := List.length_pos.2 hdw
    omega
  have hkey := hnodup (p0 ++ p1).length hilt
  rw [hpre, List.append_assoc, List.drop_left] at hkey
  apply matchDomainTail_none
  rw [hsplit]
  exact hkey

/-- At every nonempty suffix of the prefix part of the cookie, the full
matcher (with its optional leading semicolon) fails. -/
theorem matchDomainAt_none_inside {pre tail p2 : List Char}
    (hne : p2 ≠ []) (hsufx : p2 <:+ pre)
    (hlast : (pre.getLast?.all fun c => !isJsSpace c && c != ';') = true)
    (hnodup : ∀ i, i < pre.length →
      hasPrefixCI ("domain=".data) (List.drop i (pre ++ tail)) = false) :
    matchDomainAt (p2 ++ tail) = none := by
  have hlastp : ∀ c, pre.getLast? = some c → isJsSpace c = false ∧ c ≠ ';' := by
    intro c hc
    rw [hc] at hlast
    have h1 : (!isJsSpace c && (c != ';')) = true := hlast
    simp only [Bool.and_eq_true, Bool.not_eq_true', bne_iff_ne, ne_eq] at h1
    exact h1
  rcases p2 with _ | ⟨c0, p3⟩
  · exact absurd rfl hne
  by_cases hc0 : c0 = ';'
  · subst hc0
    rcases p3 with _ | ⟨c1, p4⟩
    · exfalso
      obtain ⟨p1, hp1⟩ := hsufx
      have hl : pre.getLast? = some ';' := by
        rw [← hp1]
        exact List.getLast?_concat p1
      exact (hlastp ';' hl).2 rfl
    · have hs2 : (c1 :: p4) <:+ pre := (List.suffix_cons ';' (c1 :: p4)).trans hsufx
      rw [List.cons_append, matchDomainAt_cons_sep]
      exact matchDomainTail_none_inside (List.cons_ne_nil c1 p4) hs2 hlastp hnodup
  · rw [List.cons_append, matchDomainAt_cons_ne hc0, ← List.cons_append]
    exact matchDomainTail_none_inside (List.cons_ne_nil c0 p3) hsufx hlastp hnodup

/-- The scan of `replaceDomainOnce` walks verbatim past every position at
which the matcher fails. -/
theorem replaceDomainOnce_scan {pre tail : List Char}
    (hfail : ∀ p2, p2 ≠ [] → p2 <:+ pre → matchDomainAt (p2 ++ tail) = none) :
    replaceDomainOnce (pre ++ tail) = pre ++ replaceDomainOnce tail := by
  induction pre with
  | nil => rfl
  | cons c t ih =>
    have h0 : matchDomainAt (c :: (t ++ tail)) = none := by
      have h := hfail (c :: t) (List.cons_ne_nil c t) (List.suffix_refl _)
      rw [List.cons_append] at h
      exact h
    rw [List.cons_append, replaceDomainOnce_step h0,
      ih (fun p2 h1 h2 => hfail p2 h1 (h2.trans (List.suffix_cons c t))), List.cons_append]

/-- C4 counterexample: for the Set-Cookie value
`a=b; Domain=x.com; Domain=y.com` (which contains a Domain attribute) the
rewritten value is `a=b; Domain=y.com`, which still contains the substring
`Domain=` — the regex `/;?\s*Domain=[^;]+/i` is not global, so only the
first Domain attribute is removed, refuting the claim that the rewritten
value contains no `Domain=` substring. -/
theorem rewriteSetCookie_keeps_second_domain :
    rewriteSetCookie ("a=b; Domain=x.com; Domain=y.com".data) =
      ("a=b; Domain=y.com".data) ∧
    containsStr ("Domain=".data)
      (rewriteSetCookie ("a=b; Domain=x.com; Domain=y.com".data)) = true := by
  exact ⟨by decide, by decide⟩

/-- C4 (amended): `rewriteSetCookie` removes only the first Domain
attribute.  For a Set-Cookie value containing exactly one Domain
attribute — decomposed as `pre ++ sep ++ sp ++ dlit ++ v ++ suf` with
`sep` an optional semicolon, `sp` whitespace, `dlit` the `Domain=`
literal in any case, `v` the nonempty semicolon-free value, `suf` the
rest (empty or starting with a semicolon), no case-insensitive `domain=`
occurrence starting inside `pre` or contained in `suf`, and the character
just before the matched span neither whitespace nor a semicolon — the
rewritten value is exactly `pre ++ suf`: the Domain attribute is removed,
no case-insensitive `domain=` substring remains, and every other
attribute (everything before and after the removed span) is preserved
verbatim. -/
theorem rewriteSetCookie_single_domain {pre sep sp dlit v suf : List Char}
    (hsep : sep = [] ∨ sep = [';'])
    (hsp : ∀ x ∈ sp, isJsSpace x = true)
    (hdlit : lowerL dlit = ("domain=".data))
    (hv : v ≠ []) (hvs : ∀ x ∈ v, (x != ';') = true)
    (hsuf : List.takeWhile (fun c => c != ';') suf = [])
    (hlast : (pre.getLast?.all fun c => !isJsSpace c && c != ';') = true)
    (hnodup : ∀ i, i < pre.length →
      hasPrefixCI ("domain=".data)
        (List.drop i (pre ++ (sep ++ (sp ++ (dlit ++ (v ++ suf)))))) = false)
    (hpreno : containsCI ("domain=".data) pre = false)
    (hsufno : containsCI ("domain=".data) suf = false) :
    rewriteSetCookie (pre ++ (sep ++ (sp ++ (dlit ++ (v ++ suf))))) = pre ++ suf ∧
    containsCI ("domain=".data) (pre ++ suf) = false := by
  constructor
  · show replaceDomainOnce (pre ++ (sep ++ (sp ++ (dlit ++ (v ++ suf))))) = pre ++ suf
    have hC : ∀ p2, p2 ≠ [] → p2 <:+ pre →
        matchDomainAt (p2 ++ (sep ++ (sp ++ (dlit ++ (v ++ suf))))) = none :=
      fun p2 h1 h2 => matchDomainAt_none_inside h1 h2 hlast hnodup
    rw [replaceDomainOnce_scan hC]
    have htail : matchDomainAt (sep ++ (sp ++ (dlit ++ (v ++ suf)))) = some suf :=
      matchDomainAt_attr hsep hsp hdlit hv hvs hsuf
    have htne : sep ++ (sp ++ (dlit ++ (v ++ suf))) ≠ [] := by
      obtain ⟨d0, dt, hdsh, -, -⟩ := dlit_shape hdlit
      intro hc
      rcases List.append_eq_nil.1 hc with ⟨-, h2⟩
      rcases List.append_eq_nil.1 h2 with ⟨-, h3⟩
      rcases List.append_eq_nil.1 h3 with ⟨h4, -⟩
      rw [hdsh] at h4
      exact List.cons_ne_nil _ _ h4
    rw [replaceDomainOnce_match htne htail]
  · cases hbc : containsCI ("domain=".data) (pre ++ suf) with
    | false => rfl
    | true =>
      exfalso
      have hc2 : containsStr ("domain=".data) (lowerL pre ++ lowerL suf) = true := by
        have hx : containsStr (lowerL ("domain=".data)) (lowerL (pre ++ suf)) = true := hbc
        rw [lowerL_append] at hx
        exact hx
      obtain ⟨a, b, hab, hp⟩ := containsStr_iff.1 hc2
      rcases List.append_eq_append_iff.1 hab with ⟨a2, ha1, ha2⟩ | ⟨c2, hcc1, hcc2⟩
      · have ht : containsStr ("domain=".data) (lowerL suf) = true :=
          containsStr_iff.2 ⟨a2, b, ha2, hp⟩
        have hf : containsStr ("domain=".data) (lowerL suf) = false := hsufno
        rw [ht] at hf
        exact Bool.noConfusion hf
      · subst hcc2
        by_cases hlen : ("domain=".data).length ≤ c2.length
        · have hpc : ("domain=".data) <+: c2 :=
            List.prefix_of_prefix_length_le hp (List.prefix_append c2 (lowerL suf)) hlen
          have ht : containsStr ("domain=".data) (lowerL pre) = true :=
            containsStr_iff.2 ⟨a, c2, hcc1, hpc⟩
          have hf : containsStr ("domain=".data) (lowerL pre) = false := hpreno
          rw [ht] at hf
          exact Bool.noConfusion hf
        · push_neg at hlen
          cases hsufc : suf with
          | nil =>
            rw [hsufc] at hp
            simp only [lowerL, List.map_nil, List.append_nil] at hp
            exact Nat.lt_irrefl _ (Nat.lt_of_lt_of_le hlen hp.length_le)
          | cons s0 suf2 =>
            rw [hsufc] at hsuf hp
            have hs0 : s0 = ';' := by
              rw [List.takeWhile_cons] at hsuf
              by_cases hb : (s0 != ';') = true
              · rw [if_pos hb] at hsuf
                exact absurd hsuf (List.cons_ne_nil _ _)
              · simp only [bne_iff_ne, ne_eq, Decidable.not_not] at hb
                exact hb
            subst hs0
            have hlow : lowerL (';' :: suf2) = ';' :: lowerL suf2 := rfl
            rw [hlow] at hp
            have hpref2 : c2 ++ [';'] <+: c2 ++ (';' :: lowerL suf2) :=
              (List.prefix_append_right_inj c2).2 ⟨lowerL suf2, rfl⟩
            have hle : (c2 ++ [';']).length ≤ ("domain=".data).length := by
              have h7 : ("domain=".data).length = 7 := rfl
              rw [h7] at hlen
              simp only [List.length_append, List.length_cons, List.length_nil, h7]
              omega
            have hsub : c2 ++ [';'] <+: ("domain=".data) :=
              List.prefix_of_prefix_length_le hpref2 hp hle
            have hmem : ';' ∈ ("domain=".data) :=
              hsub.subset (List.mem_append_right c2 (List.mem_cons_self ';' []))
            exact absurd hmem (by decide)

/-- Witness for the amended C4 theorem at a concrete cookie:
`a=b; Domain=x.com; Path=/` rewrites to `a=b; Path=/`, which contains no
`domain=` substring in any case. -/
theorem rewriteSetCookie_single_domain_witness :
    rewriteSetCookie (("a=b".data) ++ (([';']) ++ (([' ']) ++
        (("Domain=".data) ++ (("x.com".data) ++ ("; Path=/".data)))))) =
      ("a=b".data) ++ ("; Path=/".data) ∧
    containsCI ("domain=".data) (("a=b".data) ++ ("; Path=/".data)) = false :=
  @rewriteSetCookie_single_domain ("a=b".data) [';'] [' '] ("Domain=".data)
    ("x.com".data) ("; Path=/".data) (by decide) (by decide) (by decide)
    (by decide) (by decide) (by decide) (by decide) (by decide) (by decide) (by decide)

end Fkd
